import Mathlib

/-!
# Endpoint security and monitoring tools: module manager, event dispatcher, USB monitor

A shallow embedding of `module/manager.go`, `internal/transmission/transmission.go`
and `module/usb/monitor.go` together with the properties of the module lifecycle,
of the batching dispatcher and of the removable-storage monitor.

Conventions of the embedding.

* A Go `map[string]V` is an association list (`GoMap V`).  Lookup returns the
  first binding of a key, assignment replaces that binding in place or appends
  a new one.  Go leaves the iteration order of `range` over a map unspecified:
  every `range` loop of the source takes the sequence of visited entries as an
  explicit argument, constrained by `GoMap.IsRange`.
* A Go `error` result is `Option GoError`, `none` being `nil`.
* The methods of the `Module` interface are calls into code outside the
  manager.  Their outcome is supplied by a `Behaviour`, which may depend on
  every lifecycle call made so far; each call is recorded in a call log.
* A method call on a nil interface value is a run-time panic; functions that
  can reach one return `Option`, `none` being the panic.
* `time.Time` readings are integers counting nanoseconds, `time.Now()` is an
  explicit argument.
* The mutexes of the source are not modelled: every operation runs alone.
-/

namespace EndpointMonitor

/-! ## Go maps -/

/-- Association-list model of a Go `map[string]V`. -/
abbrev GoMap (V : Type) := List (String × V)

namespace GoMap

/-- The comma-ok lookup `v, ok := m[k]`: the first binding of `k`, if any. -/
def get? {V : Type} : GoMap V → String → Option V
  | [], _ => none
  | (k', v) :: rest, k => if k' = k then some v else get? rest k

/-- The assignment `m[k] = v`. -/
def set {V : Type} : GoMap V → String → V → GoMap V
  | [], k, v => [(k, v)]
  | (k', v') :: rest, k, v =>
    if k' = k then (k, v) :: rest else (k', v') :: set rest k v

/-- The keys of the stored bindings. -/
def keys {V : Type} (m : GoMap V) : List String := m.map Prod.fst

/-- The builtin `len(m)`. -/
def len {V : Type} (m : GoMap V) : Nat := m.length

/-- The sequence `es` is a possible visiting order of `range m`: it visits no key
twice and visits exactly the bindings that lookup sees. -/
def IsRange {V : Type} (m : GoMap V) (es : List (String × V)) : Prop :=
  (es.map Prod.fst).Nodup ∧ ∀ k v, (k, v) ∈ es ↔ get? m k = some v

end GoMap

/-! ## `internal/config` -/

/-- The struct `config.Config`; the option bag is kept as text pairs. -/
structure Config where
  Enabled : Bool
  Options : List (String × String)
  deriving DecidableEq, Repr

/-- The struct `config.Configs`. -/
structure Configs where
  Modules : GoMap Config
  deriving DecidableEq, Repr

/-! ## `module`: the manager -/

/-- A non-nil Go `error` value, identified with its message. -/
abbrev GoError := String

/-- A (non-nil) implementation of the `Module` interface, identified by a handle. -/
structure Module where
  handle : Nat
  deriving DecidableEq, Repr

/-- The three lifecycle methods of the `Module` interface the manager calls. -/
inductive Method where
  | Initialize
  | Start
  | Stop
  deriving DecidableEq, Repr

/-- One lifecycle call made by the manager: the method, the registration name
under which the module was reached, the module, and the returned error. -/
structure Call where
  method : Method
  name : String
  module : Module
  result : Option GoError
  deriving DecidableEq, Repr

/-- The outcome of a lifecycle call, given all the calls made before it. -/
abbrev Behaviour := List Call → Method → String → Module → Option GoError

/-- The struct `Manager` (without its mutex). -/
structure Manager where
  Modules : GoMap Module
  activeModules : GoMap Bool
  configs : Configs
  deriving DecidableEq, Repr

/-- The function `NewManager`. -/
def NewManager (configs : Configs) : Manager :=
  { Modules := [], activeModules := [], configs := configs }

/-- The method `Manager.RegisterModule`: the new state and the returned error. -/
def RegisterModule (m : Manager) (name : String) (module : Module) :
    Manager × Option GoError :=
  if (GoMap.get? m.Modules name).isSome then
    (m, some ("module " ++ name ++ " already registered"))
  else
    ({ m with Modules := GoMap.set m.Modules name module }, none)

/-- The read `m.activeModules[name]`, `false` for a missing key. -/
def isActive (m : Manager) (name : String) : Bool :=
  (GoMap.get? m.activeModules name).getD false

/-- The condition `moduleConfig, ok := configs.Modules[name]; ok && moduleConfig.Enabled`. -/
def configEnabled (configs : Configs) (name : String) : Bool :=
  match GoMap.get? configs.Modules name with
  | some moduleConfig => moduleConfig.Enabled
  | none => false

/-- The statement `if err != nil { errors[name] = err }`. -/
def recordError (errors : GoMap GoError) (name : String) (err : Option GoError) :
    GoMap GoError :=
  match err with
  | some e => GoMap.set errors name e
  | none => errors

/-- The loop of `Manager.InitializeAllModules` over the visited entries of
`m.Modules`, threading `activeModules`, the error map and the call log. -/
def initializeLoop (beh : Behaviour) (configs : Configs) :
    List (String × Module) → GoMap Bool → GoMap GoError → List Call →
      GoMap Bool × GoMap GoError × List Call
  | [], active, errors, log => (active, errors, log)
  | (name, module) :: rest, active, errors, log =>
    match GoMap.get? configs.Modules name with
    | some moduleConfig =>
      if moduleConfig.Enabled then
        match beh log Method.Initialize name module with
        | some err =>
          initializeLoop beh configs rest active (GoMap.set errors name err)
            (log ++ [⟨Method.Initialize, name, module, some err⟩])
        | none =>
          initializeLoop beh configs rest (GoMap.set active name true) errors
            (log ++ [⟨Method.Initialize, name, module, none⟩])
      else initializeLoop beh configs rest active errors log
    | none => initializeLoop beh configs rest active errors log

/-- The method `Manager.InitializeAllModules`; `range` is the order in which
the loop visits `m.Modules`, `log` the lifecycle calls made so far.  Returns
the new state, the error map and the extended call log. -/
def InitializeAllModules (beh : Behaviour) (range : List (String × Module))
    (m : Manager) (log : List Call) : Manager × GoMap GoError × List Call :=
  let r := initializeLoop beh m.configs range m.activeModules [] log
  ({ m with activeModules := r.1 }, r.2.1, r.2.2)

/-- The loop of `Manager.StartAllModules` over the visited entries of
`m.activeModules`; `none` is the panic of calling `Start` on the nil module
that `m.Modules[name]` yields for a missing key. -/
def startLoop (beh : Behaviour) (modules : GoMap Module) :
    List (String × Bool) → GoMap GoError → List Call →
      Option (GoMap GoError × List Call)
  | [], errors, log => some (errors, log)
  | (name, active) :: rest, errors, log =>
    if active then
      match GoMap.get? modules name with
      | none => none
      | some module =>
        startLoop beh modules rest
          (recordError errors name (beh log Method.Start name module))
          (log ++ [⟨Method.Start, name, module, beh log Method.Start name module⟩])
    else startLoop beh modules rest errors log

/-- The method `Manager.StartAllModules`; `range` is the order in which the
loop visits `m.activeModules`.  Returns the state (never written), the error
map and the extended call log, or `none` on a panic. -/
def StartAllModules (beh : Behaviour) (range : List (String × Bool))
    (m : Manager) (log : List Call) : Option (Manager × GoMap GoError × List Call) :=
  (startLoop beh m.Modules range [] log).map fun r => (m, r.1, r.2)

/-- The first loop of `Manager.StopAllModules`: the snapshot `modules` of the
active entries; a value is `none` when `m.Modules[name]` is the nil module. -/
def stopSnapshot (modules : GoMap Module) :
    List (String × Bool) → GoMap (Option Module) → GoMap (Option Module)
  | [], snapshot => snapshot
  | (name, active) :: rest, snapshot =>
    if active then
      stopSnapshot modules rest (GoMap.set snapshot name (GoMap.get? modules name))
    else stopSnapshot modules rest snapshot

/-- The second loop of `Manager.StopAllModules` over the visited entries of the
snapshot; `none` is the panic of calling `Stop` on a nil module. -/
def stopLoop (beh : Behaviour) :
    List (String × Option Module) → GoMap Bool → GoMap GoError → List Call →
      Option (GoMap Bool × GoMap GoError × List Call)
  | [], active, errors, log => some (active, errors, log)
  | (_, none) :: _, _, _, _ => none
  | (name, some module) :: rest, active, errors, log =>
    stopLoop beh rest (GoMap.set active name false)
      (recordError errors name (beh log Method.Stop name module))
      (log ++ [⟨Method.Stop, name, module, beh log Method.Stop name module⟩])

/-- The method `Manager.StopAllModules`; `range` is the order in which the first
loop visits `m.activeModules`, `snapshotOrder` gives the order in which the
second loop visits the snapshot.  Returns the new state, the error map and the
extended call log, or `none` on a panic. -/
def StopAllModules (beh : Behaviour) (range : List (String × Bool))
    (snapshotOrder : GoMap (Option Module) → List (String × Option Module))
    (m : Manager) (log : List Call) : Option (Manager × GoMap GoError × List Call) :=
  (stopLoop beh (snapshotOrder (stopSnapshot m.Modules range [])) m.activeModules []
    log).map fun r => ({ m with activeModules := r.1 }, r.2.1, r.2.2)

/-- Every name flagged active is a key of `Modules`. -/
def ActiveRegistered (m : Manager) : Prop :=
  ∀ name, isActive m name = true → name ∈ GoMap.keys m.Modules

/-- Every name flagged active has an enabled configuration entry. -/
def ActiveEnabled (m : Manager) : Prop :=
  ∀ name, isActive m name = true → configEnabled m.configs name = true

/-- Each call of `calls`, made after `log`, returned what the behaviour
prescribes at that point. -/
def Follows (beh : Behaviour) : List Call → List Call → Prop
  | _, [] => True
  | log, c :: rest =>
    c.result = beh log c.method c.name c.module ∧ Follows beh (log ++ [c]) rest

/-- The manager states reachable from `NewManager configs` by calls of
`RegisterModule`, `InitializeAllModules`, `StartAllModules` and
`StopAllModules` that return, under any module behaviour and visiting order. -/
inductive Reachable (configs : Configs) : Manager → Prop
  | newManager : Reachable configs (NewManager configs)
  | register (m : Manager) (name : String) (module : Module) :
      Reachable configs m → Reachable configs (RegisterModule m name module).1
  | initializeAll (m : Manager) (beh : Behaviour) (range : List (String × Module))
      (log : List Call) :
      Reachable configs m → GoMap.IsRange m.Modules range →
      Reachable configs (InitializeAllModules beh range m log).1
  | start (m : Manager) (beh : Behaviour) (range : List (String × Bool))
      (log : List Call) (r : Manager × GoMap GoError × List Call) :
      Reachable configs m → GoMap.IsRange m.activeModules range →
      StartAllModules beh range m log = some r → Reachable configs r.1
  | stop (m : Manager) (beh : Behaviour) (range : List (String × Bool))
      (snapshotOrder : GoMap (Option Module) → List (String × Option Module))
      (log : List Call) (r : Manager × GoMap GoError × List Call) :
      Reachable configs m → GoMap.IsRange m.activeModules range →
      GoMap.IsRange (stopSnapshot m.Modules range [])
        (snapshotOrder (stopSnapshot m.Modules range [])) →
      StopAllModules beh range snapshotOrder m log = some r → Reachable configs r.1

/-- The error map after the calls `calls`, each failing call recorded under
its name. -/
def errorsOf : List Call → GoMap GoError → GoMap GoError
  | [], errors => errors
  | c :: rest, errors => errorsOf rest (recordError errors c.name c.result)

/-- The active flags after the `Initialize` calls `calls`, each succeeding
call marking its name. -/
def activatedBy : List Call → GoMap Bool → GoMap Bool
  | [], active => active
  | c :: rest, active =>
    match c.result with
    | none => activatedBy rest (GoMap.set active c.name true)
    | some _ => activatedBy rest active

/-- The active flags after the `Stop` calls `calls`, each call clearing its name. -/
def deactivatedBy : List Call → GoMap Bool → GoMap Bool
  | [], active => active
  | c :: rest, active => deactivatedBy rest (GoMap.set active c.name false)

/-- Example configuration: "usb" and "printer" enabled, "bluetooth" disabled. -/
def exampleConfigs : Configs :=
  ⟨[("usb", ⟨true, []⟩), ("printer", ⟨true, []⟩), ("bluetooth", ⟨false, []⟩)]⟩

/-- Example manager: the three modules of `exampleConfigs` registered. -/
def exampleManager : Manager :=
  (RegisterModule (RegisterModule (RegisterModule (NewManager exampleConfigs)
    "usb" ⟨1⟩).1 "printer" ⟨2⟩).1 "bluetooth" ⟨3⟩).1

/-- Example behaviour: every lifecycle call of "usb" fails, every other succeeds. -/
def exampleBehaviour : Behaviour :=
  fun _ _ name _ => if name = "usb" then some "device unavailable" else none

/-- Example manager after `InitializeAllModules` under `exampleBehaviour`. -/
def exampleInitialized : Manager :=
  (InitializeAllModules exampleBehaviour exampleManager.Modules exampleManager []).1

/-- Example behaviour: the first lifecycle call of a run succeeds, every later
one fails. -/
def exampleLaterCallsFail : Behaviour :=
  fun log _ _ _ => if log.isEmpty then none else some "device unavailable"

/-- Example manager: "usb" alone registered, under `exampleConfigs`. -/
def exampleUsbManager : Manager :=
  (RegisterModule (NewManager exampleConfigs) "usb" ⟨1⟩).1

/-- The first `InitializeAllModules` call on `exampleUsbManager`: `Initialize` of
"usb" succeeds. -/
def exampleFirstInitialize : Manager × GoMap GoError × List Call :=
  InitializeAllModules exampleLaterCallsFail exampleUsbManager.Modules exampleUsbManager []

/-- A second `InitializeAllModules` call right after the first: `Initialize` of
"usb" fails. -/
def exampleSecondInitialize : Manager × GoMap GoError × List Call :=
  InitializeAllModules exampleLaterCallsFail exampleFirstInitialize.1.Modules
    exampleFirstInitialize.1 exampleFirstInitialize.2.2

/-! ## `internal/transmission`: the event dispatcher -/

/-- A value stored in the `Data` bag of an event (`interface{}` in the source):
text, an integer, a time reading, or a channel. -/
inductive DataValue where
  | text (s : String)
  | integer (i : Int)
  | time (t : Int)
  | channel (c : Nat)
  deriving DecidableEq, Repr

/-- The struct `module.Event`; its field `Type` is `EventType` here. -/
structure Event where
  ID : String
  Timestamp : Int
  EventType : String
  Severity : Int
  Data : List (String × DataValue)
  deriving DecidableEq, Repr

/-- The struct `EventSender`. -/
structure EventSender where
  BatchSize : Int
  eventQueue : List Event
  LastSendTime : Int
  deriving DecidableEq, Repr

/-- The function `NewEventSender`; `now` is the reading of `time.Now()`. -/
def NewEventSender (batchSize : Int) (now : Int) : EventSender :=
  { BatchSize := batchSize, eventQueue := [], LastSendTime := now }

/-- The method `EventSender.Add`: the new state and the returned error. -/
def Add (s : EventSender) (event : Event) : EventSender × Option GoError :=
  ({ s with eventQueue := s.eventQueue ++ [event] }, none)

/-- Sequential `Add` calls: the final state and the returned errors, in call order. -/
def addAll : EventSender → List Event → EventSender × List (Option GoError)
  | s, [] => (s, [])
  | s, event :: rest =>
    ((addAll (Add s event).1 rest).1, (Add s event).2 :: (addAll (Add s event).1 rest).2)

/-- The line `log.Printf("[Transmission] Send event: %s\n", string(jsonData))`. -/
def sendLine (jsonData : String) : String :=
  "[Transmission] Send event: " ++ jsonData ++ "\n"

/-- The loop of `EventSender.Flush`: one line written to the sink per event
whose serialisation `marshal` succeeds (`err == nil`), nothing for the others. -/
def flushLoop (marshal : Event → Option String) : List Event → List String → List String
  | [], sink => sink
  | event :: rest, sink =>
    match marshal event with
    | some jsonData => flushLoop marshal rest (sink ++ [sendLine jsonData])
    | none => flushLoop marshal rest sink

/-- The method `EventSender.Flush`; `marshal` stands for
`json.MarshalIndent(event, "", "  ")`, `now` for the reading of `time.Now()`,
`sink` for the lines already written to the log.  Returns the new state, the
returned error and the lines of the sink. -/
def Flush (marshal : Event → Option String) (now : Int) (s : EventSender)
    (sink : List String) : EventSender × Option GoError × List String :=
  if s.eventQueue.length = 0 then (s, none, sink)
  else
    ({ s with eventQueue := [], LastSendTime := now }, none,
      flushLoop marshal s.eventQueue sink)

/-- The method `EventSender.IsOverBatchSize`. -/
def IsOverBatchSize (s : EventSender) : Bool :=
  decide ((s.eventQueue.length : Int) ≥ s.BatchSize)

/-- The constant `time.Second`, in nanoseconds. -/
def Second : Int := 1000000000

/-- The largest `time.Duration`, `1<<63 - 1` nanoseconds. -/
def maxDuration : Int := 9223372036854775807

/-- The smallest `time.Duration`, `-1 << 63` nanoseconds. -/
def minDuration : Int := -9223372036854775808

/-- The function `time.Since(t)` at clock reading `now`: the difference `now - t`,
which `Time.Sub` saturates to the range of `time.Duration`. -/
def Since (now : Int) (t : Int) : Int :=
  if now - t > maxDuration then maxDuration
  else if now - t < minDuration then minDuration
  else now - t

/-- The method `EventSender.IsOverTime`; `now` is the reading of `time.Now()`. -/
def IsOverTime (s : EventSender) (now : Int) : Bool :=
  decide (Since now s.LastSendTime > 5 * Second)

/-- A stand-in for `json.MarshalIndent` on events: as `encoding/json` documents,
a channel value cannot be encoded and makes the call return an error; any other
event is rendered as text. -/
def marshalEvent (event : Event) : Option String :=
  if event.Data.any (fun p => match p.2 with
      | DataValue.channel _ => true
      | _ => false) then none
  else some ("\x7b\"id\": \"" ++ event.ID ++ "\", \"type\": \"" ++ event.EventType ++ "\"\x7d")

/-- Example event: a file creation with text and integer data. -/
def exampleFileEvent : Event :=
  { ID := "usb-1", Timestamp := 1, EventType := "file_create", Severity := 5,
    Data := [("path", DataValue.text "E:/a.txt"), ("size", DataValue.integer 1024)] }

/-- Example event whose data bag holds a channel. -/
def exampleChannelEvent : Event :=
  { ID := "usb-2", Timestamp := 2, EventType := "connected_drive", Severity := 5,
    Data := [("done", DataValue.channel 0)] }

/-- Example dispatcher: batch size 5, last flush at reading 0, two queued events. -/
def exampleSender : EventSender :=
  { BatchSize := 5, eventQueue := [exampleChannelEvent, exampleFileEvent], LastSendTime := 0 }

/-! ## `module/usb`: the removable-storage monitor

Further conventions.

* The monitor runs inside a `usb.Run`: the `Monitor` fields the claims are
  about, the number of `time.Now()` readings taken so far, the number of
  contexts created so far, and the list of effects on the outside (goroutine
  launches, `cancel()` calls, `watcher.Add` calls, events handed to the
  dispatcher).  The `n`-th reading of `time.Now()` is `clock n`.
* Results of calls into the operating system (`os.Stat`, `GetDriveTypeW`,
  `fsnotify.NewWatcher`, the directory tree seen by `filepath.Walk`) are
  arguments.
* A file path handled by `filepath.Walk` is the list of its components
  (`FsPath`), the first being the root the walk started from.
-/

namespace fsnotify

/-- The bit `fsnotify.Create` of `fsnotify.Op` (`1 << iota`, first constant). -/
def Create : Nat := 1

/-- The bit `fsnotify.Write`. -/
def Write : Nat := 2

/-- The bit `fsnotify.Remove`. -/
def Remove : Nat := 4

/-- The bit `fsnotify.Rename`. -/
def Rename : Nat := 8

/-- The bit `fsnotify.Chmod`. -/
def Chmod : Nat := 16

/-- The struct `fsnotify.Event`: the changed path and the operation bits. -/
structure Event where
  Name : String
  Op : Nat
  deriving DecidableEq, Repr

end fsnotify

namespace usb

/-- The constant `MAX_WATCH_DEPTH`. -/
def MAX_WATCH_DEPTH : Int := 10

/-- The constant `CONNECTED_DRIVE_SEVERITY`. -/
def CONNECTED_DRIVE_SEVERITY : Int := 5

/-- The constant `DISCONNECTED_DRIVE_SEVERITY`. -/
def DISCONNECTED_DRIVE_SEVERITY : Int := 5

/-- The constant `FILE_OPERATION_SEVERITY`. -/
def FILE_OPERATION_SEVERITY : Int := 5

/-- The struct `userinfo.UserInfo`. -/
structure UserInfo where
  UserName : String
  HostName : String
  deriving DecidableEq, Repr

/-- The struct `usb.Monitor`: its event log, the attached set, the cancellation
handles (a `context.CancelFunc` is the number of its context) and the user
information.  The empty configuration, the stop channel, the mutex and the
dispatcher reference are left out; calls of the dispatcher are effects. -/
structure Monitor where
  events : List Event
  connectedDrives : GoMap Bool
  watchContexts : GoMap Nat
  userInfo : UserInfo
  deriving DecidableEq, Repr

/-- The function `NewMonitor`. -/
def NewMonitor (userInfo : UserInfo) : Monitor :=
  { events := [], connectedDrives := [], watchContexts := [], userInfo := userInfo }

/-- An effect of the monitor on the outside. -/
inductive Effect where
  /-- The statement `go m.eventDispatcher.Add(event)`. -/
  | dispatch (event : Event)
  /-- The statement `go m.monitorDriveFiles(driveLetter)`. -/
  | startMonitor (driveLetter : String)
  /-- A call `cancel()` of the handle of context `context`. -/
  | cancel (context : Nat)
  /-- A call `watcher.Add(path)` made by `addDirectoriesToWatch`. -/
  | watchDir (driveLetter : String) (path : List String)
  /-- A call `watcher.Add(filePath)` made by `processFileEvents`. -/
  | watch (filePath : String)
  /-- The launch of the goroutine that runs `processFileEvents`. -/
  | startEvents (driveLetter : String) (context : Nat)
  deriving DecidableEq, Repr

/-- The monitor together with the bookkeeping of its environment. -/
structure Run where
  monitor : Monitor
  nowCalls : Nat
  contexts : Nat
  effects : List Effect
  deriving DecidableEq, Repr

/-- A run that starts with a new monitor. -/
def newRun (userInfo : UserInfo) : Run :=
  { monitor := NewMonitor userInfo, nowCalls := 0, contexts := 0, effects := [] }

/-- The event built by `Monitor.addEvent` when `nowCalls` clock readings have been
taken: the identifier is `"usb-%d"` of the next reading, the timestamp is the
reading after it. -/
def newEvent (clock : Nat → Int) (nowCalls : Nat) (eventType : String) (severity : Int)
    (data : List (String × DataValue)) : Event :=
  { ID := "usb-" ++ toString (clock nowCalls), Timestamp := clock (nowCalls + 1),
    EventType := eventType, Severity := severity, Data := data }

/-- The method `Monitor.addEvent`: the event is appended to the log and handed to
the dispatcher in a new goroutine. -/
def addEvent (clock : Nat → Int) (r : Run) (eventType : String) (severity : Int)
    (data : List (String × DataValue)) : Run :=
  { r with
    monitor := { r.monitor with events := r.monitor.events ++
      [newEvent clock r.nowCalls eventType severity data] }
    nowCalls := r.nowCalls + 2
    effects := r.effects ++
      [Effect.dispatch (newEvent clock r.nowCalls eventType severity data)] }

/-- One `addEvent` call after another, for the given types, severities and data. -/
def addEvents (clock : Nat → Int) :
    Run → List (String × Int × List (String × DataValue)) → Run
  | r, [] => r
  | r, (eventType, severity, data) :: rest =>
    addEvents clock (addEvent clock r eventType severity data) rest

/-- The method `Monitor.getOperationName`. -/
def getOperationName (op : Nat) : String :=
  if op &&& fsnotify.Create = fsnotify.Create then "create"
  else if op &&& fsnotify.Write = fsnotify.Write then "write"
  else if op &&& fsnotify.Remove = fsnotify.Remove then "delete"
  else if op &&& fsnotify.Rename = fsnotify.Rename then "rename"
  else if op &&& fsnotify.Chmod = fsnotify.Chmod then "chmod"
  else "unknown"

/-- What `os.Stat` or `os.Lstat` reports of a path: the parts of `os.FileInfo` read
by the monitor. -/
structure FileInfo where
  IsDir : Bool
  Size : Int
  deriving DecidableEq, Repr

/-- The struct `FileOperation`; the timestamp is a clock reading. -/
structure FileOperation where
  Operation : String
  FilePath : String
  FileName : String
  DriveLetter : String
  UserInfo : UserInfo
  Timestamp : Int
  FileSize : Int
  deriving DecidableEq, Repr

/-- The method `Monitor.logFileOperation` (the console line is left out);
`formatTime` stands for `Time.Format(time.RFC3339)`. -/
def logFileOperation (clock : Nat → Int) (formatTime : Int → String) (r : Run)
    (op : FileOperation) : Run :=
  addEvent clock r ("file_" ++ op.Operation) FILE_OPERATION_SEVERITY
    [("path", DataValue.text op.FilePath),
     ("filename", DataValue.text op.FileName),
     ("drive", DataValue.text op.DriveLetter),
     ("user", DataValue.text op.UserInfo.UserName),
     ("host", DataValue.text op.UserInfo.HostName),
     ("timestamp", DataValue.text (formatTime op.Timestamp)),
     ("operation", DataValue.text op.Operation),
     ("size", DataValue.integer op.FileSize)]

/-- What one round of the `select` in `processFileEvents` receives. -/
inductive Selected where
  /-- The context is cancelled: `<-ctx.Done()`. -/
  | done
  /-- A receive from `watcher.Events`: `none` when the channel is closed, otherwise
  the notification with the results of the first and of the second `os.Stat` of
  its path (`none` is an error). -/
  | notification (event : Option fsnotify.Event) (firstStat secondStat : Option FileInfo)
  /-- A receive from `watcher.Errors`; `ok` is false when the channel is closed. -/
  | error (ok : Bool)
  deriving DecidableEq, Repr

/-- The body of the case `event, ok := <-watcher.Events` of `processFileEvents` for a
received notification; `base` stands for `filepath.Base`. -/
def handleNotification (clock : Nat → Int) (formatTime : Int → String)
    (base : String → String) (driveLetter : String) (r : Run) (event : fsnotify.Event)
    (firstStat secondStat : Option FileInfo) : Run :=
  if event.Op &&& fsnotify.Create = fsnotify.Create ∨
      event.Op &&& fsnotify.Write = fsnotify.Write then
    if (match firstStat with
        | some fileInfo => fileInfo.IsDir
        | none => false) then
      { r with effects := r.effects ++ [Effect.watch event.Name] }
    else
      logFileOperation clock formatTime { r with nowCalls := r.nowCalls + 1 }
        { Operation := getOperationName event.Op
          FilePath := event.Name
          FileName := base event.Name
          DriveLetter := driveLetter
          UserInfo := r.monitor.userInfo
          Timestamp := clock r.nowCalls
          FileSize :=
            match secondStat with
            | some fileInfo => if fileInfo.IsDir then 0 else fileInfo.Size
            | none => 0 }
  else r

/-- The method `Monitor.processFileEvents` on the sequence of things its `select`
receives; the loop ends on cancellation or on a closed channel. -/
def processFileEvents (clock : Nat → Int) (formatTime : Int → String)
    (base : String → String) (driveLetter : String) : List Selected → Run → Run
  | [], r => r
  | Selected.done :: _, r => r
  | Selected.notification none _ _ :: _, r => r
  | Selected.notification (some event) firstStat secondStat :: rest, r =>
    processFileEvents clock formatTime base driveLetter rest
      (handleNotification clock formatTime base driveLetter r event firstStat secondStat)
  | Selected.error false :: _, r => r
  | Selected.error true :: rest, r =>
    processFileEvents clock formatTime base driveLetter rest r

end usb

/-- A file path as the list of its components, the first being the root of the walk. -/
abbrev FsPath := List String

/-- What `os.Lstat` and the directory listing see at and below a path: a file
that is not a directory, an entry whose `Lstat` fails, or a directory, readable
or not, with its entries in the order `filepath.Walk` visits them. -/
inductive FileTree where
  | file (size : Int)
  | broken
  | dir (readable : Bool) (children : List (String × FileTree))
  deriving Repr

namespace filepath

/-- A non-nil error returned by a `filepath.WalkFunc` or by the walk. -/
inductive WalkError where
  | SkipDir
  | failure
  deriving DecidableEq, Repr

/-- The function `filepath.Rel` on a target below the base path: the components
after the base, the empty list standing for ".".  Targets outside the base,
which a walk from the base never produces, give `none`. -/
def Rel : FsPath → FsPath → Option FsPath
  | [], targpath => some targpath
  | _ :: _, [] => none
  | b :: basepath, t :: targpath => if b = t then Rel basepath targpath else none

/-- Whether the walk goes on after the callback returned `SkipDir` for this
entry: it does for a directory and for an entry whose `Lstat` failed. -/
def skippable : FileTree → Bool
  | FileTree.file _ => false
  | FileTree.broken => true
  | FileTree.dir _ _ => true

mutual
/-- The function `walk` of `path/filepath`: the callback is called once for each
entry, with an error when `Lstat` or the directory listing failed. -/
def walk {S : Type} (walkFn : FsPath → Option usb.FileInfo → Bool → S → Option WalkError × S)
    (path : FsPath) : FileTree → S → Option WalkError × S
  | FileTree.file size, s => walkFn path (some ⟨false, size⟩) false s
  | FileTree.broken, s => walkFn path none true s
  | FileTree.dir readable children, s =>
    if readable then
      match walkFn path (some ⟨true, 0⟩) false s with
      | (some err1, s1) => (some err1, s1)
      | (none, s1) => walkNames walkFn path children s1
    else walkFn path (some ⟨true, 0⟩) true s
/-- The loop of `walk` over the names of a directory. -/
def walkNames {S : Type}
    (walkFn : FsPath → Option usb.FileInfo → Bool → S → Option WalkError × S)
    (path : FsPath) : List (String × FileTree) → S → Option WalkError × S
  | [], s => (none, s)
  | (name, t) :: rest, s =>
    match walk walkFn (path ++ [name]) t s with
    | (some err, s1) =>
      if skippable t ∧ err = WalkError.SkipDir then walkNames walkFn path rest s1
      else (some err, s1)
    | (none, s1) => walkNames walkFn path rest s1
end

/-- The function `filepath.Walk`. -/
def Walk {S : Type} (walkFn : FsPath → Option usb.FileInfo → Bool → S → Option WalkError × S)
    (root : FsPath) (tree : FileTree) (s : S) : Option WalkError × S :=
  match walk walkFn root tree s with
  | (some WalkError.SkipDir, s1) => (none, s1)
  | result => result

end filepath

namespace usb

/-- The callback `walkFn` of `Monitor.addDirectoriesToWatch`; the state is the list
of paths passed to `watcher.Add`. -/
def watchWalkFn (rootPath : FsPath) (maxDepth : Int) (path : FsPath)
    (info : Option FileInfo) (err : Bool) (watched : List FsPath) :
    Option filepath.WalkError × List FsPath :=
  if err then (none, watched)
  else
    match info with
    | none => (none, watched)
    | some info =>
      if info.IsDir then
        if maxDepth > 0 then
          match filepath.Rel rootPath path with
          | some relPath =>
            if relPath ≠ [] then
              if (relPath.length : Int) > maxDepth then (some filepath.WalkError.SkipDir, watched)
              else (none, watched ++ [path])
            else (none, watched ++ [path])
          | none => (none, watched ++ [path])
        else (none, watched ++ [path])
      else (none, watched)

/-- The method `Monitor.addDirectoriesToWatch`: the error of `filepath.Walk`, which
is only logged, and the paths passed to `watcher.Add`. -/
def addDirectoriesToWatch (rootPath : FsPath) (maxDepth : Int) (tree : FileTree)
    (watched : List FsPath) : Option filepath.WalkError × List FsPath :=
  filepath.Walk (watchWalkFn rootPath maxDepth) rootPath tree watched

/-- The directory `rel` below the root of `tree` exists and it and every
directory above it can be listed. -/
def ReadableDir : List String → FileTree → Prop
  | [], FileTree.dir readable _ => readable = true
  | name :: rest, FileTree.dir readable children =>
    readable = true ∧ ∃ t, (name, t) ∈ children ∧ ReadableDir rest t
  | _, _ => False

mutual
/-- The directories of `tree` that can be reached through readable directories and
lie at most `maxDepth` below the root, as paths relative to `tree`, which
itself lies `depth` below the root. -/
def dirsWithin (maxDepth : Int) (depth : Nat) : FileTree → List (List String)
  | FileTree.file _ => []
  | FileTree.broken => []
  | FileTree.dir readable children =>
    if readable = true ∧ (depth : Int) ≤ maxDepth then
      [] :: childDirsWithin maxDepth (depth + 1) children
    else []
/-- The same for the entries of a directory that lie `depth` below the root. -/
def childDirsWithin (maxDepth : Int) (depth : Nat) :
    List (String × FileTree) → List (List String)
  | [] => []
  | (name, t) :: rest =>
    (dirsWithin maxDepth depth t).map (fun sub => name :: sub) ++
      childDirsWithin maxDepth depth rest
end

/-- A chain of `n` nested directories `d1/d2/…`, numbered from `k + 1`. -/
def chain : Nat → Nat → FileTree
  | 0, _ => FileTree.dir true []
  | n + 1, k => FileTree.dir true [("d" ++ toString (k + 1), chain n (k + 1))]

end usb

namespace GoMap

/-- The builtin `delete(m, k)`. -/
def delete {V : Type} (m : GoMap V) (k : String) : GoMap V :=
  m.filter fun p => decide (p.1 ≠ k)

/-- The loop `for k, v := range m { copy[k] = v }` over the visited entries. -/
def copyInto {V : Type} : List (String × V) → GoMap V → GoMap V
  | [], copy => copy
  | (k, v) :: rest, copy => copyInto rest (set copy k v)

end GoMap

namespace usb

/-- The data of a `connected_drive` or `disconnected_drive` event. -/
def driveData (userInfo : UserInfo) (driveLetter : String) : List (String × DataValue) :=
  [("drive", DataValue.text driveLetter),
   ("user", DataValue.text userInfo.UserName),
   ("host", DataValue.text userInfo.HostName)]

/-- The expression `fmt.Sprintf("%s:\\", driveLetter)`. -/
def drivePath (driveLetter : String) : String := driveLetter ++ ":\\"

/-- The loop of `Monitor.detectConnectedDrives` over the drive letters;
`connectedDrives` is the field of the monitor, `isRemovableDrive` the outcome of
the method of that name. -/
def connectLoop (clock : Nat → Int) (isRemovableDrive : String → Bool)
    (connectedDrives : GoMap Bool) :
    List String → GoMap Bool → GoMap Bool → Run → GoMap Bool × GoMap Bool × Run
  | [], currentDrives, newConnectedDrives, r => (currentDrives, newConnectedDrives, r)
  | driveLetter :: rest, currentDrives, newConnectedDrives, r =>
    if isRemovableDrive (drivePath driveLetter) then
      if (GoMap.get? connectedDrives driveLetter).isSome then
        connectLoop clock isRemovableDrive connectedDrives rest
          (GoMap.set currentDrives driveLetter true) newConnectedDrives r
      else
        connectLoop clock isRemovableDrive connectedDrives rest
          (GoMap.set currentDrives driveLetter true)
          (GoMap.set newConnectedDrives driveLetter true)
          { addEvent clock r "connected_drive" CONNECTED_DRIVE_SEVERITY
              (driveData r.monitor.userInfo driveLetter) with
            effects := (addEvent clock r "connected_drive" CONNECTED_DRIVE_SEVERITY
              (driveData r.monitor.userInfo driveLetter)).effects ++
                [Effect.startMonitor driveLetter] }
    else
      connectLoop clock isRemovableDrive connectedDrives rest currentDrives
        newConnectedDrives r

/-- The method `Monitor.detectConnectedDrives`; `range` is the order in which the
copy loop visits `m.connectedDrives`.  Returns `currentDrives`,
`newConnectedDrives` and the run. -/
def detectConnectedDrives (clock : Nat → Int) (isRemovableDrive : String → Bool)
    (range : List (String × Bool)) (drives : List String) (r : Run) :
    GoMap Bool × GoMap Bool × Run :=
  connectLoop clock isRemovableDrive r.monitor.connectedDrives drives []
    (GoMap.copyInto range []) r

/-- The statements of `Monitor.detectDisconnectedDrives` for a drive found
disconnected, up to the deletion from `updatedDrives`: the event, then the call
and the deletion of the cancellation handle when there is one. -/
def disconnectDrive (clock : Nat → Int) (r : Run) (driveLetter : String) : Run :=
  match GoMap.get? r.monitor.watchContexts driveLetter with
  | some cancel =>
    { addEvent clock r "disconnected_drive" DISCONNECTED_DRIVE_SEVERITY
        (driveData r.monitor.userInfo driveLetter) with
      monitor :=
        { (addEvent clock r "disconnected_drive" DISCONNECTED_DRIVE_SEVERITY
            (driveData r.monitor.userInfo driveLetter)).monitor with
          watchContexts := GoMap.delete r.monitor.watchContexts driveLetter }
      effects := (addEvent clock r "disconnected_drive" DISCONNECTED_DRIVE_SEVERITY
        (driveData r.monitor.userInfo driveLetter)).effects ++ [Effect.cancel cancel] }
  | none =>
    addEvent clock r "disconnected_drive" DISCONNECTED_DRIVE_SEVERITY
      (driveData r.monitor.userInfo driveLetter)

/-- The second loop of `Monitor.detectDisconnectedDrives` over the visited entries
of `connectedDrives`. -/
def disconnectLoop (clock : Nat → Int) (currentDrives : GoMap Bool) :
    List (String × Bool) → GoMap Bool → Run → GoMap Bool × Run
  | [], updatedDrives, r => (updatedDrives, r)
  | (driveLetter, _) :: rest, updatedDrives, r =>
    if (GoMap.get? currentDrives driveLetter).isSome then
      disconnectLoop clock currentDrives rest updatedDrives r
    else
      disconnectLoop clock currentDrives rest (GoMap.delete updatedDrives driveLetter)
        (disconnectDrive clock r driveLetter)

/-- The method `Monitor.detectDisconnectedDrives`; `copyOrder` and `loopOrder` give
the orders in which its two loops visit `connectedDrives`.  Returns
`updatedDrives` and the run. -/
def detectDisconnectedDrives (clock : Nat → Int)
    (copyOrder loopOrder : GoMap Bool → List (String × Bool))
    (currentDrives connectedDrives : GoMap Bool) (r : Run) : GoMap Bool × Run :=
  disconnectLoop clock currentDrives (loopOrder connectedDrives)
    (GoMap.copyInto (copyOrder connectedDrives) []) r

/-- The method `Monitor.monitorDriveFiles` up to the launch of its event loop;
`newWatcherFails` tells whether `fsnotify.NewWatcher` returns an error, `tree` is
what the walk finds on the drive. -/
def monitorDriveFiles (newWatcherFails : Bool) (tree : FileTree) (r : Run)
    (driveLetter : String) : Run :=
  if newWatcherFails then
    { r with
      monitor := { r.monitor with
        watchContexts :=
          GoMap.delete (GoMap.set r.monitor.watchContexts driveLetter r.contexts) driveLetter }
      contexts := r.contexts + 1 }
  else
    { r with
      monitor := { r.monitor with
        watchContexts := GoMap.set r.monitor.watchContexts driveLetter r.contexts }
      contexts := r.contexts + 1
      effects := r.effects ++
        (addDirectoriesToWatch [drivePath driveLetter] MAX_WATCH_DEPTH tree []).2.map
          (Effect.watchDir driveLetter) ++
        [Effect.startEvents driveLetter r.contexts] }

/-- What the environment supplies to one round of the loop of
`Monitor.startDriveMonitoring`: the result of `getAvailableDrives`, the outcome
of `isRemovableDrive` for each drive path, whether `fsnotify.NewWatcher` fails
for a drive, the directory tree of each drive, and the visiting orders of the
three `range` loops. -/
structure Poll where
  drives : List String
  isRemovableDrive : String → Bool
  newWatcherFails : String → Bool
  volumes : String → FileTree
  rangeOrder : GoMap Bool → List (String × Bool)
  copyOrder : GoMap Bool → List (String × Bool)
  loopOrder : GoMap Bool → List (String × Bool)

/-- The statements of one round of `Monitor.startDriveMonitoring`:
`detectConnectedDrives`, `detectDisconnectedDrives` and the assignment of
`m.connectedDrives`. -/
def detectStep (clock : Nat → Int) (p : Poll) (r : Run) : Run :=
  { (detectDisconnectedDrives clock p.copyOrder p.loopOrder
      (detectConnectedDrives clock p.isRemovableDrive
        (p.rangeOrder r.monitor.connectedDrives) p.drives r).1
      (detectConnectedDrives clock p.isRemovableDrive
        (p.rangeOrder r.monitor.connectedDrives) p.drives r).2.1
      (detectConnectedDrives clock p.isRemovableDrive
        (p.rangeOrder r.monitor.connectedDrives) p.drives r).2.2).2 with
    monitor :=
      { (detectDisconnectedDrives clock p.copyOrder p.loopOrder
          (detectConnectedDrives clock p.isRemovableDrive
        (p.rangeOrder r.monitor.connectedDrives) p.drives r).1
          (detectConnectedDrives clock p.isRemovableDrive
        (p.rangeOrder r.monitor.connectedDrives) p.drives r).2.1
          (detectConnectedDrives clock p.isRemovableDrive
        (p.rangeOrder r.monitor.connectedDrives) p.drives r).2.2).2.monitor with
        connectedDrives :=
          (detectDisconnectedDrives clock p.copyOrder p.loopOrder
            (detectConnectedDrives clock p.isRemovableDrive
        (p.rangeOrder r.monitor.connectedDrives) p.drives r).1
            (detectConnectedDrives clock p.isRemovableDrive
        (p.rangeOrder r.monitor.connectedDrives) p.drives r).2.1
            (detectConnectedDrives clock p.isRemovableDrive
        (p.rangeOrder r.monitor.connectedDrives) p.drives r).2.2).1 } }

/-- The drive letters of the `go m.monitorDriveFiles(driveLetter)` statements among
the effects, in launch order. -/
def startedDrives : List Effect → List String
  | [] => []
  | Effect.startMonitor driveLetter :: rest => driveLetter :: startedDrives rest
  | _ :: rest => startedDrives rest

/-- The launched `monitorDriveFiles` goroutines run, in launch order. -/
def runMonitors (p : Poll) : List String → Run → Run
  | [], r => r
  | driveLetter :: rest, r =>
    runMonitors p rest
      (monitorDriveFiles (p.newWatcherFails driveLetter) (p.volumes driveLetter) r driveLetter)

/-- A completed poll step: one round of `Monitor.startDriveMonitoring` followed by
the run of every `monitorDriveFiles` goroutine the round launched. -/
def pollStep (clock : Nat → Int) (p : Poll) (r : Run) : Run :=
  runMonitors p
    (startedDrives ((detectStep clock p r).effects.drop r.effects.length))
    (detectStep clock p r)

/-- Completed poll steps one after another. -/
def pollAll (clock : Nat → Int) : List Poll → Run → Run
  | [], r => r
  | p :: rest, r => pollAll clock rest (pollStep clock p r)

/-- The visiting orders of the poll are possible orders of the maps they range over. -/
def PollValid (clock : Nat → Int) (p : Poll) (r : Run) : Prop :=
  GoMap.IsRange r.monitor.connectedDrives (p.rangeOrder r.monitor.connectedDrives) ∧
  GoMap.IsRange (detectConnectedDrives clock p.isRemovableDrive
        (p.rangeOrder r.monitor.connectedDrives) p.drives r).2.1
    (p.copyOrder (detectConnectedDrives clock p.isRemovableDrive
        (p.rangeOrder r.monitor.connectedDrives) p.drives r).2.1) ∧
  GoMap.IsRange (detectConnectedDrives clock p.isRemovableDrive
        (p.rangeOrder r.monitor.connectedDrives) p.drives r).2.1
    (p.loopOrder (detectConnectedDrives clock p.isRemovableDrive
        (p.rangeOrder r.monitor.connectedDrives) p.drives r).2.1)

/-- The runs reached from a new monitor by completed poll steps; with
`watchersOk = true` only steps in which every `fsnotify.NewWatcher` call succeeds
are taken. -/
inductive PollReachable (clock : Nat → Int) (userInfo : UserInfo) (watchersOk : Bool) :
    Run → Prop
  | new : PollReachable clock userInfo watchersOk (newRun userInfo)
  | step (r : Run) (p : Poll) :
      PollReachable clock userInfo watchersOk r → PollValid clock p r →
      (watchersOk = true → ∀ driveLetter, p.newWatcherFails driveLetter = false) →
      PollReachable clock userInfo watchersOk (pollStep clock p r)

/-- The type, severity and data of an event. -/
def summary (e : Event) : String × Int × List (String × DataValue) :=
  (e.EventType, e.Severity, e.Data)

/-- The drives of `drives` that are removable and not yet in `connectedDrives`. -/
def freshDrives (isRemovableDrive : String → Bool) (connectedDrives : GoMap Bool)
    (drives : List String) : List String :=
  drives.filter fun d =>
    isRemovableDrive (drivePath d) && !(GoMap.get? connectedDrives d).isSome

/-- The visited drives that are not in `currentDrives`. -/
def goneDrives (currentDrives : GoMap Bool) (visited : List (String × Bool)) : List String :=
  (visited.map Prod.fst).filter fun d => !(GoMap.get? currentDrives d).isSome

/-- A poll that finds the given drives, all removable, with every watcher created
and the maps visited in their stored order. -/
def simplePoll (drives : List String) : Poll :=
  { drives := drives
    isRemovableDrive := fun _ => true
    newWatcherFails := fun _ => false
    volumes := fun _ => FileTree.dir true []
    rangeOrder := fun m => m
    copyOrder := fun m => m
    loopOrder := fun m => m }

end usb

/-! ## Unsynchronised calls of `EventSender.Add`

`EventSender` has no lock.  The statement `s.eventQueue = append(s.eventQueue,
event)` of `Add` is a read of the field followed by a write; goroutines that run
`Add` are interleaved at these two steps. -/

/-- A goroutine running `Add(event)`: it has not read `s.eventQueue` yet, it
holds the slice `append(s.eventQueue, event)` it is about to store, or it has
returned. -/
inductive AddCall where
  | pending (event : Event)
  | appended (queue : List Event)
  | returned
  deriving DecidableEq, Repr

/-- The next step of a goroutine running `Add`. -/
def stepAddCall (s : EventSender) : AddCall → EventSender × AddCall
  | AddCall.pending event => (s, AddCall.appended (s.eventQueue ++ [event]))
  | AddCall.appended queue => ({ s with eventQueue := queue }, AddCall.returned)
  | AddCall.returned => (s, AddCall.returned)

/-- The goroutines run under a schedule: each entry names the goroutine that
takes the next step. -/
def runAddCalls : List Nat → EventSender → List AddCall → EventSender × List AddCall
  | [], s, calls => (s, calls)
  | i :: schedule, s, calls =>
    match calls[i]? with
    | some call =>
      runAddCalls schedule (stepAddCall s call).1 (calls.set i (stepAddCall s call).2)
    | none => runAddCalls schedule s calls

/-- Example run: a new monitor of user "alice" on host "pc". -/
def exampleRun : usb.Run := usb.newRun ⟨"alice", "pc"⟩

/-- Example clock: the `n`-th reading is `n`. -/
def exampleClock : Nat → Int := fun n => n

/-- Example notification: the file `E:\a.txt` was removed. -/
def exampleRemoveNotification : fsnotify.Event := ⟨"E:\\a.txt", fsnotify.Remove⟩

/-- Example notification: the file `E:\a.txt` was created. -/
def exampleCreateNotification : fsnotify.Event := ⟨"E:\\a.txt", fsnotify.Create⟩

/-- Example poll: drive "E" is found and removable, and `fsnotify.NewWatcher`
fails. -/
def exampleFailingPoll : usb.Poll :=
  { usb.simplePoll ["E"] with newWatcherFails := fun _ => true }

/-! ## Lemmas on Go maps -/

namespace GoMap

theorem get?_set {V : Type} (m : GoMap V) (k : String) (v : V) (k' : String) :
    get? (set m k v) k' = if k = k' then some v else get? m k' := by
  induction m with
  | nil => simp [set, get?]
  | cons p rest ih =>
    obtain ⟨a, b⟩ := p
    by_cases h : a = k
    · subst h
      by_cases h' : a = k' <;> simp [set, get?, h']
    · by_cases h' : a = k'
      · subst h'
        have : ¬ k = a := fun e => h e.symm
        simp [set, get?, h, this]
      · simp [set, get?, h, h', ih]

theorem get?_isSome_iff {V : Type} (m : GoMap V) (k : String) :
    (get? m k).isSome = true ↔ k ∈ keys m := by
  induction m with
  | nil => simp [get?, keys]
  | cons p rest ih =>
    obtain ⟨a, b⟩ := p
    by_cases h : a = k
    · simp [get?, keys, h]
    · have h' : ¬ k = a := fun e => h e.symm
      simp only [get?, h, if_false, ih, keys, List.map_cons, List.mem_cons, h', false_or]

theorem get?_eq_none_iff {V : Type} (m : GoMap V) (k : String) :
    get? m k = none ↔ k ∉ keys m := by
  rw [← get?_isSome_iff]
  cases get? m k <;> simp

theorem keys_set {V : Type} (m : GoMap V) (k : String) (v : V) :
    keys (set m k v) = if k ∈ keys m then keys m else keys m ++ [k] := by
  induction m with
  | nil => simp [set, keys]
  | cons p rest ih =>
    obtain ⟨a, b⟩ := p
    by_cases h : a = k
    · subst h
      simp [set, keys]
    · have h' : ¬ k = a := fun e => h e.symm
      simp only [keys] at ih
      by_cases hk : k ∈ List.map Prod.fst rest
      · simp [set, keys, h, h', hk, ih]
      · simp [set, keys, h, h', hk, ih]

theorem nodup_keys_set {V : Type} (m : GoMap V) (k : String) (v : V)
    (h : (keys m).Nodup) : (keys (set m k v)).Nodup := by
  rw [keys_set]
  by_cases hk : k ∈ keys m
  · simp [hk, h]
  · simp only [hk, if_false]
    exact List.Nodup.append h (List.nodup_singleton k) (by simpa using hk)

theorem length_set {V : Type} (m : GoMap V) (k : String) (v : V) :
    (set m k v).length = if k ∈ keys m then m.length else m.length + 1 := by
  have h := congrArg List.length (keys_set m k v)
  simp only [keys, List.length_map] at h
  rw [h]
  by_cases hk : k ∈ List.map Prod.fst m
  · simp [keys, hk]
  · simp [keys, hk]

theorem mem_iff_get?_of_nodup {V : Type} (m : GoMap V) (h : (keys m).Nodup)
    (k : String) (v : V) : (k, v) ∈ m ↔ get? m k = some v := by
  induction m with
  | nil => simp [get?]
  | cons p rest ih =>
    obtain ⟨a, b⟩ := p
    simp only [keys, List.map_cons, List.nodup_cons] at h
    have ih' := ih h.2
    by_cases hk : a = k
    · subst hk
      have hnot : (a, v) ∉ rest := fun hm => h.1 (List.mem_map_of_mem Prod.fst hm)
      simp only [get?, if_true, List.mem_cons, Prod.mk.injEq, true_and, hnot, or_false,
        Option.some.injEq]
      exact eq_comm
    · have hk' : ¬ k = a := fun e => hk e.symm
      simp [get?, hk, hk', ih']

theorem isRange_self {V : Type} (m : GoMap V) (h : (keys m).Nodup) : IsRange m m :=
  ⟨h, mem_iff_get?_of_nodup m h⟩

theorem IsRange.mem_keys_iff {V : Type} {m : GoMap V} {es : List (String × V)}
    (h : IsRange m es) (k : String) : k ∈ es.map Prod.fst ↔ k ∈ keys m := by
  rw [← get?_isSome_iff]
  constructor
  · intro hk
    obtain ⟨p, hp, rfl⟩ := List.mem_map.1 hk
    have := (h.2 p.1 p.2).1 hp
    simp [this]
  · intro hk
    obtain ⟨v, hv⟩ := Option.isSome_iff_exists.1 hk
    exact List.mem_map.2 ⟨(k, v), (h.2 k v).2 hv, rfl⟩

end GoMap

/-! ## Lemmas on the error map and the active flags -/

theorem get?_recordError (errors : GoMap GoError) (name : String) (err : Option GoError)
    (k : String) :
    GoMap.get? (recordError errors name err) k
      = if name = k ∧ err.isSome = true then err else GoMap.get? errors k := by
  cases err with
  | none => simp [recordError]
  | some e =>
    by_cases h : name = k <;> simp [recordError, GoMap.get?_set, h]

theorem get?_errorsOf (calls : List Call) (errors : GoMap GoError)
    (hnodup : (calls.map Call.name).Nodup) (k : String) (err : GoError) :
    GoMap.get? (errorsOf calls errors) k = some err ↔
      (∃ c ∈ calls, c.name = k ∧ c.result = some err) ∨
      ((∀ c ∈ calls, c.name = k → c.result = none) ∧ GoMap.get? errors k = some err) := by
  induction calls generalizing errors with
  | nil => simp [errorsOf]
  | cons c rest ih =>
    simp only [List.map_cons, List.nodup_cons] at hnodup
    rw [errorsOf, ih _ hnodup.2, get?_recordError]
    by_cases hk : c.name = k
    · have hrest : ∀ d ∈ rest, ¬ d.name = k := by
        intro d hd hdk
        exact hnodup.1 (List.mem_map.2 ⟨d, hd, by rw [hdk, hk]⟩)
      cases hres : c.result with
      | none =>
        constructor
        · rintro (⟨d, hd, hdk, _⟩ | ⟨_, hget⟩)
          · exact absurd hdk (hrest d hd)
          · simp only [hk, Option.isSome_none, and_false, if_false] at hget
            refine Or.inr ⟨?_, hget⟩
            intro d hd hdk
            rcases List.mem_cons.1 hd with rfl | hd
            · exact hres
            · exact absurd hdk (hrest d hd)
        · rintro (⟨d, hd, hdk, hdr⟩ | ⟨_, hget⟩)
          · rcases List.mem_cons.1 hd with rfl | hd
            · rw [hres] at hdr
              exact absurd hdr (by simp)
            · exact absurd hdk (hrest d hd)
          · refine Or.inr ⟨fun d hd hdk => absurd hdk (hrest d hd), ?_⟩
            simpa [hk] using hget
      | some e =>
        constructor
        · rintro (⟨d, hd, hdk, _⟩ | ⟨_, hget⟩)
          · exact absurd hdk (hrest d hd)
          · simp only [hk, Option.isSome_some, and_self, if_true] at hget
            exact Or.inl ⟨c, List.mem_cons_self _ _, hk, by rw [hres]; exact hget⟩
        · rintro (⟨d, hd, hdk, hdr⟩ | ⟨hall, _⟩)
          · rcases List.mem_cons.1 hd with rfl | hd
            · refine Or.inr ⟨fun d hd hdk => absurd hdk (hrest d hd), ?_⟩
              rw [hres] at hdr
              simpa [hk] using hdr
            · exact absurd hdk (hrest d hd)
          · have := hall c (List.mem_cons_self _ _) hk
            rw [hres] at this
            exact absurd this (by simp)
    · have hif : ¬ (c.name = k ∧ c.result.isSome = true) := fun h => hk h.1
      simp only [hif, if_false]
      constructor
      · rintro (⟨d, hd, hdk, hdr⟩ | ⟨hall, hget⟩)
        · exact Or.inl ⟨d, List.mem_cons_of_mem _ hd, hdk, hdr⟩
        · refine Or.inr ⟨?_, hget⟩
          intro d hd hdk
          rcases List.mem_cons.1 hd with rfl | hd
          · exact absurd hdk hk
          · exact hall d hd hdk
      · rintro (⟨d, hd, hdk, hdr⟩ | ⟨hall, hget⟩)
        · rcases List.mem_cons.1 hd with rfl | hd
          · exact absurd hdk hk
          · exact Or.inl ⟨d, hd, hdk, hdr⟩
        · exact Or.inr ⟨fun d hd hdk => hall d (List.mem_cons_of_mem _ hd) hdk, hget⟩

theorem get?_errorsOf_nil (calls : List Call) (hnodup : (calls.map Call.name).Nodup)
    (k : String) (err : GoError) :
    GoMap.get? (errorsOf calls []) k = some err ↔
      ∃ c ∈ calls, c.name = k ∧ c.result = some err := by
  rw [get?_errorsOf calls [] hnodup]
  simp [GoMap.get?]

theorem length_errorsOf (calls : List Call) (errors : GoMap GoError)
    (hnodup : (calls.map Call.name).Nodup)
    (hfresh : ∀ c ∈ calls, c.name ∉ GoMap.keys errors) :
    (errorsOf calls errors).length
      = errors.length + (calls.filter fun c => c.result.isSome).length := by
  induction calls generalizing errors with
  | nil => simp [errorsOf]
  | cons c rest ih =>
    simp only [List.map_cons, List.nodup_cons] at hnodup
    have hc := hfresh c (List.mem_cons_self _ _)
    have hrest : ∀ d ∈ rest, ¬ d.name = c.name := by
      intro d hd hdk
      exact hnodup.1 (List.mem_map.2 ⟨d, hd, hdk⟩)
    rw [errorsOf]
    cases hres : c.result with
    | none =>
      have hrec : recordError errors c.name none = errors := rfl
      rw [hrec, ih errors hnodup.2 (fun d hd => hfresh d (List.mem_cons_of_mem _ hd))]
      simp [List.filter_cons, hres]
    | some e =>
      have hfresh' : ∀ d ∈ rest, d.name ∉ GoMap.keys (recordError errors c.name (some e)) := by
        intro d hd
        simp only [recordError, GoMap.keys_set, hc, if_false, List.mem_append,
          List.mem_singleton, not_or]
        exact ⟨hfresh d (List.mem_cons_of_mem _ hd), hrest d hd⟩
      rw [ih _ hnodup.2 hfresh']
      simp only [recordError, GoMap.length_set, hc, if_false, List.filter_cons, hres,
        Option.isSome_some, if_true, List.length_cons]
      omega

theorem get?_activatedBy (calls : List Call) (active : GoMap Bool) (k : String) :
    (GoMap.get? (activatedBy calls active) k).getD false = true ↔
      (GoMap.get? active k).getD false = true ∨
      ∃ c ∈ calls, c.name = k ∧ c.result = none := by
  induction calls generalizing active with
  | nil => simp [activatedBy]
  | cons c rest ih =>
    cases hres : c.result with
    | none =>
      simp only [activatedBy, hres]
      rw [ih, GoMap.get?_set]
      by_cases hk : c.name = k
      · simp only [hk, if_true, Option.getD_some, true_or, true_iff]
        exact Or.inr ⟨c, List.mem_cons_self _ _, hk, hres⟩
      · simp only [hk, if_false, List.mem_cons, exists_eq_or_imp, false_and, false_or]
    | some e =>
      simp only [activatedBy, hres]
      rw [ih]
      simp [hres]

theorem get?_deactivatedBy (calls : List Call) (active : GoMap Bool) (k : String) :
    (GoMap.get? (deactivatedBy calls active) k).getD false = true ↔
      (GoMap.get? active k).getD false = true ∧ k ∉ calls.map Call.name := by
  induction calls generalizing active with
  | nil => simp [deactivatedBy]
  | cons c rest ih =>
    rw [deactivatedBy, ih, GoMap.get?_set]
    by_cases hk : c.name = k
    · simp [hk]
    · have hk' : ¬ k = c.name := fun e => hk e.symm
      simp [hk, hk']

/-! ## Lemmas on the loops of the manager -/

theorem initializeLoop_calls (beh : Behaviour) (configs : Configs)
    (es : List (String × Module)) (active : GoMap Bool) (errors : GoMap GoError)
    (log : List Call) :
    ∃ calls : List Call,
      initializeLoop beh configs es active errors log
        = (activatedBy calls active, errorsOf calls errors, log ++ calls) ∧
      calls.map Call.name
        = (es.filter fun p => configEnabled configs p.1).map Prod.fst ∧
      (∀ c ∈ calls, c.method = Method.Initialize ∧ (c.name, c.module) ∈ es) ∧
      Follows beh log calls := by
  induction es generalizing active errors log with
  | nil => exact ⟨[], by simp [initializeLoop, activatedBy, errorsOf, Follows]⟩
  | cons p rest ih =>
    obtain ⟨name, module⟩ := p
    cases hcfg : GoMap.get? configs.Modules name with
    | none =>
      obtain ⟨calls, h1, h2, h3, h4⟩ := ih active errors log
      refine ⟨calls, ?_, ?_, ?_, h4⟩
      · simp only [initializeLoop, hcfg]
        exact h1
      · simp [List.filter_cons, configEnabled, hcfg, h2]
      · exact fun c hc => ⟨(h3 c hc).1, List.mem_cons_of_mem _ (h3 c hc).2⟩
    | some moduleConfig =>
      by_cases hen : moduleConfig.Enabled = true
      · cases hres : beh log Method.Initialize name module with
        | none =>
          obtain ⟨calls, h1, h2, h3, h4⟩ :=
            ih (GoMap.set active name true) errors
              (log ++ [⟨Method.Initialize, name, module, none⟩])
          refine ⟨⟨Method.Initialize, name, module, none⟩ :: calls, ?_, ?_, ?_, ?_⟩
          · simp only [initializeLoop, hcfg, hen, if_true, hres]
            rw [h1]
            simp [activatedBy, errorsOf, recordError]
          · simp [List.filter_cons, configEnabled, hcfg, hen, h2]
          · intro c hc
            rcases List.mem_cons.1 hc with rfl | hc
            · exact ⟨rfl, List.mem_cons_self _ _⟩
            · exact ⟨(h3 c hc).1, List.mem_cons_of_mem _ (h3 c hc).2⟩
          · exact ⟨hres.symm, h4⟩
        | some err =>
          obtain ⟨calls, h1, h2, h3, h4⟩ :=
            ih active (GoMap.set errors name err)
              (log ++ [⟨Method.Initialize, name, module, some err⟩])
          refine ⟨⟨Method.Initialize, name, module, some err⟩ :: calls, ?_, ?_, ?_, ?_⟩
          · simp only [initializeLoop, hcfg, hen, if_true, hres]
            rw [h1]
            simp [activatedBy, errorsOf, recordError]
          · simp [List.filter_cons, configEnabled, hcfg, hen, h2]
          · intro c hc
            rcases List.mem_cons.1 hc with rfl | hc
            · exact ⟨rfl, List.mem_cons_self _ _⟩
            · exact ⟨(h3 c hc).1, List.mem_cons_of_mem _ (h3 c hc).2⟩
          · exact ⟨hres.symm, h4⟩
      · obtain ⟨calls, h1, h2, h3, h4⟩ := ih active errors log
        refine ⟨calls, ?_, ?_, ?_, h4⟩
        · simp only [initializeLoop, hcfg, hen]
          exact h1
        · simp [List.filter_cons, configEnabled, hcfg, hen, h2]
        · exact fun c hc => ⟨(h3 c hc).1, List.mem_cons_of_mem _ (h3 c hc).2⟩

theorem nodup_map_fst_filter {V : Type} (es : List (String × V)) (f : String × V → Bool)
    (h : (es.map Prod.fst).Nodup) : ((es.filter f).map Prod.fst).Nodup :=
  List.Nodup.sublist (List.Sublist.map Prod.fst (List.filter_sublist es)) h

theorem count_eq_of_nodup_iff (names : List String) (h : names.Nodup) (P : String → Prop)
    [DecidablePred P] (hmem : ∀ k, k ∈ names ↔ P k) (k : String) :
    names.count k = if P k then 1 else 0 := by
  rw [List.count_eq_of_nodup h]
  by_cases hk : P k
  · simp [hk, (hmem k).2 hk]
  · have hnot : k ∉ names := fun hin => hk ((hmem k).1 hin)
    simp [hk, hnot]

theorem getD_eq_true_iff (o : Option Bool) : o.getD false = true ↔ o = some true := by
  cases o <;> simp

theorem startLoop_calls (beh : Behaviour) (modules : GoMap Module)
    (es : List (String × Bool)) (errors : GoMap GoError) (log : List Call)
    (hreg : ∀ name, (name, true) ∈ es → name ∈ GoMap.keys modules) :
    ∃ calls : List Call,
      startLoop beh modules es errors log = some (errorsOf calls errors, log ++ calls) ∧
      calls.map Call.name = (es.filter fun p => p.2).map Prod.fst ∧
      (∀ c ∈ calls, c.method = Method.Start ∧
        GoMap.get? modules c.name = some c.module ∧ (c.name, true) ∈ es) ∧
      Follows beh log calls := by
  induction es generalizing errors log with
  | nil => exact ⟨[], by simp [startLoop, errorsOf, Follows]⟩
  | cons p rest ih =>
    obtain ⟨name, active⟩ := p
    have hreg' : ∀ k, (k, true) ∈ rest → k ∈ GoMap.keys modules :=
      fun k hk => hreg k (List.mem_cons_of_mem _ hk)
    cases active with
    | false =>
      obtain ⟨calls, h1, h2, h3, h4⟩ := ih errors log hreg'
      refine ⟨calls, ?_, ?_, ?_, h4⟩
      · simpa [startLoop] using h1
      · simp [List.filter_cons, h2]
      · exact fun c hc => ⟨(h3 c hc).1, (h3 c hc).2.1, List.mem_cons_of_mem _ (h3 c hc).2.2⟩
    | true =>
      have hin := (GoMap.get?_isSome_iff modules name).2 (hreg name (List.mem_cons_self _ _))
      obtain ⟨module, hmod⟩ := Option.isSome_iff_exists.1 hin
      obtain ⟨calls, h1, h2, h3, h4⟩ :=
        ih (recordError errors name (beh log Method.Start name module))
          (log ++ [⟨Method.Start, name, module, beh log Method.Start name module⟩]) hreg'
      refine ⟨⟨Method.Start, name, module, beh log Method.Start name module⟩ :: calls,
        ?_, ?_, ?_, ?_⟩
      · simp only [startLoop, if_true, hmod]
        rw [h1]
        simp [errorsOf]
      · simp [List.filter_cons, h2]
      · intro c hc
        rcases List.mem_cons.1 hc with rfl | hc
        · exact ⟨rfl, hmod, List.mem_cons_self _ _⟩
        · exact ⟨(h3 c hc).1, (h3 c hc).2.1, List.mem_cons_of_mem _ (h3 c hc).2.2⟩
      · exact ⟨rfl, h4⟩

theorem startLoop_some (beh : Behaviour) (modules : GoMap Module)
    (es : List (String × Bool)) (errors : GoMap GoError) (log : List Call)
    (r : GoMap GoError × List Call)
    (h : startLoop beh modules es errors log = some r) :
    ∀ name, (name, true) ∈ es → name ∈ GoMap.keys modules := by
  induction es generalizing errors log with
  | nil => simp
  | cons p rest ih =>
    obtain ⟨name, active⟩ := p
    intro k hk
    cases active with
    | false =>
      simp only [startLoop, Bool.false_eq_true, if_false] at h
      rcases List.mem_cons.1 hk with heq | hk
      · simp at heq
      · exact ih _ _ h k hk
    | true =>
      cases hmod : GoMap.get? modules name with
      | none => simp [startLoop, hmod] at h
      | some module =>
        simp only [startLoop, if_true, hmod] at h
        rcases List.mem_cons.1 hk with heq | hk
        · simp only [Prod.mk.injEq, and_true] at heq
          rw [heq, ← GoMap.get?_isSome_iff, hmod]
          rfl
        · exact ih _ _ h k hk

theorem get?_stopSnapshot (modules : GoMap Module) (es : List (String × Bool))
    (snapshot : GoMap (Option Module)) (k : String) :
    GoMap.get? (stopSnapshot modules es snapshot) k
      = if (k, true) ∈ es then some (GoMap.get? modules k) else GoMap.get? snapshot k := by
  induction es generalizing snapshot with
  | nil => simp [stopSnapshot]
  | cons p rest ih =>
    obtain ⟨name, active⟩ := p
    cases active with
    | false => simp [stopSnapshot, ih]
    | true =>
      simp only [stopSnapshot, if_true, ih, GoMap.get?_set, List.mem_cons, Prod.mk.injEq,
        and_true]
      by_cases hrest : (k, true) ∈ rest
      · simp [hrest]
      · by_cases hk : name = k
        · subst hk
          simp [hrest]
        · have hk' : ¬ k = name := fun e => hk e.symm
          simp [hrest, hk, hk']

theorem stopLoop_calls (beh : Behaviour) (es : List (String × Option Module))
    (active : GoMap Bool) (errors : GoMap GoError) (log : List Call)
    (hsome : ∀ name, (name, none) ∉ es) :
    ∃ calls : List Call,
      stopLoop beh es active errors log
        = some (deactivatedBy calls active, errorsOf calls errors, log ++ calls) ∧
      calls.map Call.name = es.map Prod.fst ∧
      (∀ c ∈ calls, c.method = Method.Stop ∧ (c.name, some c.module) ∈ es) ∧
      Follows beh log calls := by
  induction es generalizing active errors log with
  | nil => exact ⟨[], by simp [stopLoop, deactivatedBy, errorsOf, Follows]⟩
  | cons p rest ih =>
    obtain ⟨name, o⟩ := p
    cases o with
    | none => exact absurd (List.mem_cons_self _ _) (hsome name)
    | some module =>
      obtain ⟨calls, h1, h2, h3, h4⟩ :=
        ih (GoMap.set active name false)
          (recordError errors name (beh log Method.Stop name module))
          (log ++ [⟨Method.Stop, name, module, beh log Method.Stop name module⟩])
          (fun k hk => hsome k (List.mem_cons_of_mem _ hk))
      refine ⟨⟨Method.Stop, name, module, beh log Method.Stop name module⟩ :: calls,
        ?_, ?_, ?_, ?_⟩
      · simp only [stopLoop]
        rw [h1]
        simp [deactivatedBy, errorsOf]
      · simp [h2]
      · intro c hc
        rcases List.mem_cons.1 hc with rfl | hc
        · exact ⟨rfl, List.mem_cons_self _ _⟩
        · exact ⟨(h3 c hc).1, List.mem_cons_of_mem _ (h3 c hc).2⟩
      · exact ⟨rfl, h4⟩

theorem stopLoop_some (beh : Behaviour) (es : List (String × Option Module))
    (active : GoMap Bool) (errors : GoMap GoError) (log : List Call)
    (r : GoMap Bool × GoMap GoError × List Call)
    (h : stopLoop beh es active errors log = some r) :
    ∀ name, (name, none) ∉ es := by
  induction es generalizing active errors log with
  | nil => simp
  | cons p rest ih =>
    obtain ⟨name, o⟩ := p
    cases o with
    | none => simp [stopLoop] at h
    | some module =>
      simp only [stopLoop] at h
      intro k hk
      rcases List.mem_cons.1 hk with heq | hk
      · simp at heq
      · exact ih _ _ _ h k hk

/-- The entries visited by the second loop of `StopAllModules` are the active
names, each with the module registered under it. -/
theorem mem_snapshotRange_iff (modules : GoMap Module) (active : GoMap Bool)
    (range : List (String × Bool)) (es : List (String × Option Module))
    (hrange : GoMap.IsRange active range)
    (hsnap : GoMap.IsRange (stopSnapshot modules range []) es)
    (k : String) (o : Option Module) :
    (k, o) ∈ es ↔ (GoMap.get? active k).getD false = true ∧ o = GoMap.get? modules k := by
  rw [hsnap.2, get?_stopSnapshot, getD_eq_true_iff, ← hrange.2]
  by_cases hk : (k, true) ∈ range
  · simp only [hk, if_true, Option.some.injEq, true_and]
    exact eq_comm
  · simp [hk, GoMap.get?]

theorem mem_map_fst_snapshotRange_iff (modules : GoMap Module) (active : GoMap Bool)
    (range : List (String × Bool)) (es : List (String × Option Module))
    (hrange : GoMap.IsRange active range)
    (hsnap : GoMap.IsRange (stopSnapshot modules range []) es) (k : String) :
    k ∈ es.map Prod.fst ↔ (GoMap.get? active k).getD false = true := by
  constructor
  · intro hk
    obtain ⟨p, hp, rfl⟩ := List.mem_map.1 hk
    exact ((mem_snapshotRange_iff modules active range es hrange hsnap p.1 p.2).1 hp).1
  · intro hk
    exact List.mem_map.2 ⟨(k, GoMap.get? modules k),
      (mem_snapshotRange_iff modules active range es hrange hsnap k _).2 ⟨hk, rfl⟩, rfl⟩

theorem stopAll_calls (beh : Behaviour) (m : Manager) (range : List (String × Bool))
    (snapshotOrder : GoMap (Option Module) → List (String × Option Module))
    (log : List Call) (hrange : GoMap.IsRange m.activeModules range)
    (hsnap : GoMap.IsRange (stopSnapshot m.Modules range [])
      (snapshotOrder (stopSnapshot m.Modules range [])))
    (hsome : ∀ name, (name, none) ∉ snapshotOrder (stopSnapshot m.Modules range [])) :
    ∃ calls : List Call,
      StopAllModules beh range snapshotOrder m log
        = some ({ m with activeModules := deactivatedBy calls m.activeModules },
            errorsOf calls [], log ++ calls) ∧
      (calls.map Call.name).Nodup ∧
      (∀ name, name ∈ calls.map Call.name ↔ isActive m name = true) ∧
      (∀ c ∈ calls, c.method = Method.Stop ∧ GoMap.get? m.Modules c.name = some c.module) ∧
      Follows beh log calls := by
  obtain ⟨calls, h1, h2, h3, h4⟩ :=
    stopLoop_calls beh (snapshotOrder (stopSnapshot m.Modules range [])) m.activeModules []
      log hsome
  refine ⟨calls, ?_, ?_, ?_, ?_, h4⟩
  · simp [StopAllModules, h1]
  · rw [h2]
    exact hsnap.1
  · intro name
    rw [h2]
    exact mem_map_fst_snapshotRange_iff m.Modules m.activeModules range _ hrange hsnap name
  · intro c hc
    refine ⟨(h3 c hc).1, ?_⟩
    exact ((mem_snapshotRange_iff m.Modules m.activeModules range _ hrange hsnap c.name
      (some c.module)).1 (h3 c hc).2).2.symm

theorem deactivatedBy_inactive (calls : List Call) (m : Manager)
    (hmem : ∀ name, name ∈ calls.map Call.name ↔ isActive m name = true) (name : String) :
    isActive { m with activeModules := deactivatedBy calls m.activeModules } name = false := by
  cases h : isActive { m with activeModules := deactivatedBy calls m.activeModules } name with
  | false => rfl
  | true =>
    have h' := (get?_deactivatedBy calls m.activeModules name).1 h
    exact absurd ((hmem name).2 h'.1) h'.2

theorem stopAll_some_inactive (beh : Behaviour) (m : Manager) (range : List (String × Bool))
    (snapshotOrder : GoMap (Option Module) → List (String × Option Module))
    (log : List Call) (r : Manager × GoMap GoError × List Call)
    (hrange : GoMap.IsRange m.activeModules range)
    (hsnap : GoMap.IsRange (stopSnapshot m.Modules range [])
      (snapshotOrder (stopSnapshot m.Modules range [])))
    (hrun : StopAllModules beh range snapshotOrder m log = some r) :
    r.1.Modules = m.Modules ∧ r.1.configs = m.configs ∧ ∀ name, isActive r.1 name = false := by
  have hsome : ∀ name, (name, none) ∉ snapshotOrder (stopSnapshot m.Modules range []) := by
    cases hloop : stopLoop beh (snapshotOrder (stopSnapshot m.Modules range []))
        m.activeModules [] log with
    | none => simp [StopAllModules, hloop] at hrun
    | some r' => exact stopLoop_some beh _ _ _ _ r' hloop
  obtain ⟨calls, h1, _, h3, _, _⟩ :=
    stopAll_calls beh m range snapshotOrder log hrange hsnap hsome
  rw [h1] at hrun
  have hr := (Option.some.inj hrun).symm
  subst hr
  exact ⟨rfl, rfl, deactivatedBy_inactive calls m h3⟩

theorem startAll_calls (beh : Behaviour) (m : Manager) (range : List (String × Bool))
    (log : List Call) (hrange : GoMap.IsRange m.activeModules range)
    (hreg : ActiveRegistered m) :
    ∃ calls : List Call,
      StartAllModules beh range m log = some (m, errorsOf calls [], log ++ calls) ∧
      (calls.map Call.name).Nodup ∧
      (∀ name, name ∈ calls.map Call.name ↔ isActive m name = true) ∧
      (∀ c ∈ calls, c.method = Method.Start ∧ GoMap.get? m.Modules c.name = some c.module) ∧
      Follows beh log calls := by
  have hreg' : ∀ name, (name, true) ∈ range → name ∈ GoMap.keys m.Modules := by
    intro name hmem
    apply hreg
    simp [isActive, (hrange.2 name true).1 hmem]
  obtain ⟨calls, h1, h2, h3, h4⟩ := startLoop_calls beh m.Modules range [] log hreg'
  refine ⟨calls, ?_, ?_, ?_, ?_, h4⟩
  · simp [StartAllModules, h1]
  · rw [h2]
    exact nodup_map_fst_filter range _ hrange.1
  · intro name
    rw [h2]
    simp only [List.mem_map, List.mem_filter, isActive, getD_eq_true_iff, ← hrange.2]
    constructor
    · rintro ⟨⟨k, b⟩, ⟨hp, hb⟩, rfl⟩
      simp only at hb
      subst hb
      exact hp
    · intro hp
      exact ⟨(name, true), ⟨hp, rfl⟩, rfl⟩
  · exact fun c hc => ⟨(h3 c hc).1, (h3 c hc).2.1⟩

theorem initializeAll_active (beh : Behaviour) (m : Manager)
    (range : List (String × Module)) (log : List Call)
    (hrange : GoMap.IsRange m.Modules range) (name : String)
    (hactive : isActive (InitializeAllModules beh range m log).1 name = true) :
    isActive m name = true ∨
      (name ∈ GoMap.keys m.Modules ∧ configEnabled m.configs name = true ∧
        GoMap.get? (InitializeAllModules beh range m log).2.1 name = none) := by
  obtain ⟨calls, hloop, hnames, _, _⟩ :=
    initializeLoop_calls beh m.configs range m.activeModules [] log
  have hrun : InitializeAllModules beh range m log
      = ({ m with activeModules := activatedBy calls m.activeModules },
          errorsOf calls [], log ++ calls) := by
    simp [InitializeAllModules, hloop]
  have hnodup : (calls.map Call.name).Nodup := by
    rw [hnames]
    exact nodup_map_fst_filter range _ hrange.1
  rw [hrun] at hactive ⊢
  rcases (get?_activatedBy calls m.activeModules name).1 hactive with h | ⟨c, hc, hname, hres⟩
  · exact Or.inl h
  · right
    have hmem : name ∈ (range.filter fun p => configEnabled m.configs p.1).map Prod.fst := by
      rw [← hnames, ← hname]
      exact List.mem_map_of_mem _ hc
    obtain ⟨p, hp, hpname⟩ := List.mem_map.1 hmem
    have hp' := List.mem_filter.1 hp
    refine ⟨?_, ?_, ?_⟩
    · rw [← hrange.mem_keys_iff, ← hpname]
      exact List.mem_map_of_mem _ hp'.1
    · rw [← hpname]
      exact hp'.2
    · cases hget : GoMap.get? (errorsOf calls []) name with
      | none => rfl
      | some err =>
        obtain ⟨d, hd, hdname, hdres⟩ := (get?_errorsOf_nil calls hnodup name err).1 hget
        have hcd : c = d :=
          List.inj_on_of_nodup_map hnodup hc hd (by rw [hname, hdname])
        rw [hcd, hdres] at hres
        exact absurd hres (by simp)

theorem startAll_some_state (beh : Behaviour) (m : Manager) (range : List (String × Bool))
    (log : List Call) (r : Manager × GoMap GoError × List Call)
    (hrun : StartAllModules beh range m log = some r) : r.1 = m := by
  cases hloop : startLoop beh m.Modules range [] log with
  | none => simp [StartAllModules, hloop] at hrun
  | some r' =>
    simp only [StartAllModules, hloop, Option.map_some', Option.some.injEq] at hrun
    rw [← hrun]

theorem registerModule_state (m : Manager) (name : String) (module : Module) :
    (RegisterModule m name module).1.activeModules = m.activeModules ∧
    (RegisterModule m name module).1.configs = m.configs ∧
    ∀ k, k ∈ GoMap.keys m.Modules → k ∈ GoMap.keys (RegisterModule m name module).1.Modules := by
  unfold RegisterModule
  by_cases h : (GoMap.get? m.Modules name).isSome = true
  · simp [h]
  · simp only [h, Bool.false_eq_true, if_false, true_and]
    intro k hk
    rw [GoMap.keys_set]
    by_cases hin : name ∈ GoMap.keys m.Modules
    · simpa [hin] using hk
    · simp only [hin, if_false, List.mem_append]
      exact Or.inl hk

theorem exampleInitialized_active (name : String)
    (h : isActive exampleInitialized name = true) : name = "printer" := by
  have hact : exampleInitialized.activeModules = [("printer", true)] := by decide
  by_contra hne
  have hne' : ¬ "printer" = name := fun e => hne e.symm
  simp [isActive, hact, GoMap.get?, hne'] at h

theorem exampleInitialized_activeRegistered : ActiveRegistered exampleInitialized := by
  intro name h
  rw [exampleInitialized_active name h]
  decide

theorem exampleInitialized_activeEnabled : ActiveEnabled exampleInitialized := by
  intro name h
  rw [exampleInitialized_active name h]
  decide

/-! ## Lemmas on the dispatcher -/

theorem addAll_eq (s : EventSender) (events : List Event) :
    addAll s events
      = ({ s with eventQueue := s.eventQueue ++ events }, List.replicate events.length none) := by
  induction events generalizing s with
  | nil => simp [addAll]
  | cons event rest ih =>
    simp [addAll, ih, Add, List.replicate_succ]

theorem flushLoop_eq (marshal : Event → Option String) (queue : List Event)
    (sink : List String) :
    flushLoop marshal queue sink = sink ++ (queue.filterMap marshal).map sendLine := by
  induction queue generalizing sink with
  | nil => simp [flushLoop]
  | cons event rest ih =>
    cases h : marshal event with
    | none => simp [flushLoop, h, ih, List.filterMap_cons]
    | some text => simp [flushLoop, h, ih, List.filterMap_cons]

theorem forall₂_filterMap_of_all (marshal : Event → Option String) (queue : List Event)
    (h : ∀ e ∈ queue, marshal e ≠ none) :
    List.Forall₂ (fun e line => ∃ text, marshal e = some text ∧ line = sendLine text)
      queue ((queue.filterMap marshal).map sendLine) := by
  induction queue with
  | nil => simp
  | cons event rest ih =>
    cases hm : marshal event with
    | none => exact absurd hm (h event (List.mem_cons_self _ _))
    | some text =>
      simp only [List.filterMap_cons, hm, List.map_cons]
      exact List.Forall₂.cons ⟨text, hm, rfl⟩
        (ih fun e he => h e (List.mem_cons_of_mem _ he))

/-! ## Theorems -/

/-- C1: `RegisterModule` returns a non-nil error exactly when the name is already
a key of `Modules`; when it returns an error the whole manager state is the
state before the call, so `Modules` still maps the name to the module of the
first registration and no entry of `Modules` or `activeModules` changes.  A
first registration of a fresh name followed by a second one under the same
name keeps the first module. -/
theorem RegisterModule_error_iff_registered (m : Manager) (name : String)
    (module : Module) :
    ((RegisterModule m name module).2 ≠ none ↔ name ∈ GoMap.keys m.Modules) ∧
    ((RegisterModule m name module).2 ≠ none →
      (RegisterModule m name module).1 = m ∧
      ∀ k, GoMap.get? (RegisterModule m name module).1.Modules k = GoMap.get? m.Modules k ∧
        GoMap.get? (RegisterModule m name module).1.activeModules k
          = GoMap.get? m.activeModules k) ∧
    (∀ second : Module, name ∉ GoMap.keys m.Modules →
      (RegisterModule m name module).2 = none ∧
      (RegisterModule (RegisterModule m name module).1 name second).2 ≠ none ∧
      GoMap.get? (RegisterModule (RegisterModule m name module).1 name second).1.Modules name
        = some module) := by
  refine ⟨?_, ?_, ?_⟩
  · rw [← GoMap.get?_isSome_iff]
    unfold RegisterModule
    by_cases h : (GoMap.get? m.Modules name).isSome = true <;> simp [h]
  · intro herr
    have hm : (RegisterModule m name module).1 = m := by
      unfold RegisterModule at herr ⊢
      by_cases h : (GoMap.get? m.Modules name).isSome = true
      · simp [h]
      · simp [h] at herr
    rw [hm]
    exact ⟨rfl, fun _ => ⟨rfl, rfl⟩⟩
  · intro second hfresh
    have hnone : (GoMap.get? m.Modules name).isSome = false := by
      have := (GoMap.get?_eq_none_iff m.Modules name).2 hfresh
      simp [this]
    have h1 : RegisterModule m name module
        = ({ m with Modules := GoMap.set m.Modules name module }, none) := by
      simp [RegisterModule, hnone]
    have hget : GoMap.get? (GoMap.set m.Modules name module) name = some module := by
      simp [GoMap.get?_set]
    refine ⟨by rw [h1], ?_, ?_⟩
    · rw [h1]
      simp [RegisterModule, hget]
    · rw [h1]
      simp [RegisterModule, hget]

/-- Witness for C1: a manager holding module 1 as "usb" refuses a second "usb". -/
theorem RegisterModule_error_iff_registered_witness :
    (RegisterModule (RegisterModule (NewManager ⟨[]⟩) "usb" ⟨1⟩).1 "usb" ⟨2⟩).2 ≠ none ∧
    (RegisterModule (RegisterModule (NewManager ⟨[]⟩) "usb" ⟨1⟩).1 "usb" ⟨2⟩).1
      = (RegisterModule (NewManager ⟨[]⟩) "usb" ⟨1⟩).1 :=
  ⟨by decide,
   ((RegisterModule_error_iff_registered
      (RegisterModule (NewManager ⟨[]⟩) "usb" ⟨1⟩).1 "usb" ⟨2⟩).2.1 (by decide)).1⟩

/-- C2: `InitializeAllModules` calls `Initialize` exactly once under each registered
name whose configuration entry exists and is enabled, and under no other name;
the returned error map binds exactly the names whose call returned an error, to
that error; every name whose call succeeded is active afterwards, whatever the
other calls returned.  The error map has as many entries as there are failing
calls; so with one failing and one succeeding call it has exactly one entry and
the succeeding module is active. -/
theorem InitializeAllModules_isolates_errors (beh : Behaviour) (m : Manager)
    (range : List (String × Module)) (log : List Call)
    (hrange : GoMap.IsRange m.Modules range) :
    ∃ calls : List Call,
      (InitializeAllModules beh range m log).2.2 = log ++ calls ∧
      Follows beh log calls ∧
      (∀ c ∈ calls, c.method = Method.Initialize ∧
        GoMap.get? m.Modules c.name = some c.module) ∧
      (∀ name, (calls.map Call.name).count name =
        if name ∈ GoMap.keys m.Modules ∧ configEnabled m.configs name = true
        then 1 else 0) ∧
      (∀ name err,
        GoMap.get? (InitializeAllModules beh range m log).2.1 name = some err ↔
          ∃ c ∈ calls, c.name = name ∧ c.result = some err) ∧
      (∀ c ∈ calls, c.result = none →
        isActive (InitializeAllModules beh range m log).1 c.name = true) ∧
      GoMap.len (InitializeAllModules beh range m log).2.1
        = (calls.filter fun c => c.result.isSome).length ∧
      (∀ failing succeeding : Call, calls.Perm [failing, succeeding] →
        failing.result ≠ none → succeeding.result = none →
        GoMap.len (InitializeAllModules beh range m log).2.1 = 1 ∧
        isActive (InitializeAllModules beh range m log).1 succeeding.name = true) := by
  obtain ⟨calls, hloop, hnames, hcalls, hfollows⟩ :=
    initializeLoop_calls beh m.configs range m.activeModules [] log
  have hrun : InitializeAllModules beh range m log
      = ({ m with activeModules := activatedBy calls m.activeModules },
          errorsOf calls [], log ++ calls) := by
    simp [InitializeAllModules, hloop]
  have hnodup : (calls.map Call.name).Nodup := by
    rw [hnames]
    exact nodup_map_fst_filter range _ hrange.1
  have hactive : ∀ c ∈ calls, c.result = none →
      isActive (InitializeAllModules beh range m log).1 c.name = true := by
    intro c hc hres
    rw [hrun]
    exact (get?_activatedBy calls m.activeModules c.name).2 (Or.inr ⟨c, hc, rfl, hres⟩)
  have hlen : GoMap.len (InitializeAllModules beh range m log).2.1
      = (calls.filter fun c => c.result.isSome).length := by
    rw [hrun]
    simpa [GoMap.len] using length_errorsOf calls [] hnodup (by simp [GoMap.keys])
  refine ⟨calls, by rw [hrun], hfollows, ?_, ?_, ?_, hactive, hlen, ?_⟩
  · intro c hc
    exact ⟨(hcalls c hc).1, (hrange.2 _ _).1 (hcalls c hc).2⟩
  · intro name
    refine count_eq_of_nodup_iff _ hnodup
      (fun k => k ∈ GoMap.keys m.Modules ∧ configEnabled m.configs k = true) ?_ name
    intro k
    show _ ↔ k ∈ GoMap.keys m.Modules ∧ configEnabled m.configs k = true
    rw [hnames, ← hrange.mem_keys_iff]
    simp only [List.mem_map, List.mem_filter]
    constructor
    · rintro ⟨p, ⟨hp, hen⟩, rfl⟩
      exact ⟨⟨p, hp, rfl⟩, hen⟩
    · rintro ⟨⟨p, hp, rfl⟩, hen⟩
      exact ⟨p, ⟨hp, hen⟩, rfl⟩
  · intro name err
    rw [hrun]
    exact get?_errorsOf_nil calls hnodup name err
  · intro failing succeeding hperm hfail hsucc
    refine ⟨?_, hactive succeeding (hperm.mem_iff.2 (by simp)) hsucc⟩
    rw [hlen, (hperm.filter _).length_eq]
    cases hf : failing.result with
    | none => exact absurd hf hfail
    | some e => simp [List.filter_cons, hf, hsucc]

/-- Witness for C2: with "usb" failing and "printer" succeeding, the error map has
one entry and "printer" is active. -/
theorem InitializeAllModules_isolates_errors_witness :
    GoMap.IsRange exampleManager.Modules exampleManager.Modules ∧
    (∃ calls : List Call,
      (InitializeAllModules exampleBehaviour exampleManager.Modules exampleManager []).2.2
        = [] ++ calls ∧
      (∀ name err,
        GoMap.get? (InitializeAllModules exampleBehaviour exampleManager.Modules
          exampleManager []).2.1 name = some err ↔
          ∃ c ∈ calls, c.name = name ∧ c.result = some err)) ∧
    GoMap.len (InitializeAllModules exampleBehaviour exampleManager.Modules
      exampleManager []).2.1 = 1 ∧
    isActive (InitializeAllModules exampleBehaviour exampleManager.Modules
      exampleManager []).1 "printer" = true :=
  ⟨GoMap.isRange_self _ (by decide),
   (InitializeAllModules_isolates_errors exampleBehaviour exampleManager
      exampleManager.Modules [] (GoMap.isRange_self _ (by decide))).imp
      (fun _ h => ⟨h.1, h.2.2.2.2.1⟩),
   by decide, by decide⟩

/-- C3: in a state where every active name is registered, `StopAllModules`
returns (no nil module is reached) and calls `Stop` exactly once under each name
that was active and under no other, whatever the other `Stop` calls return; the
error map binds exactly the names whose `Stop` failed, to that error; afterwards
`activeModules[name]` is false for every name, so for every stopped module
whether or not its `Stop` returned an error. -/
theorem StopAllModules_stops_every_active (beh : Behaviour) (m : Manager)
    (range : List (String × Bool))
    (snapshotOrder : GoMap (Option Module) → List (String × Option Module))
    (log : List Call) (hrange : GoMap.IsRange m.activeModules range)
    (hsnap : GoMap.IsRange (stopSnapshot m.Modules range [])
      (snapshotOrder (stopSnapshot m.Modules range [])))
    (hreg : ActiveRegistered m) :
    ∃ (calls : List Call) (m' : Manager) (errors : GoMap GoError),
      StopAllModules beh range snapshotOrder m log = some (m', errors, log ++ calls) ∧
      Follows beh log calls ∧
      (∀ c ∈ calls, c.method = Method.Stop ∧ GoMap.get? m.Modules c.name = some c.module) ∧
      (∀ name, (calls.map Call.name).count name = if isActive m name = true then 1 else 0) ∧
      (∀ name err, GoMap.get? errors name = some err ↔
        ∃ c ∈ calls, c.name = name ∧ c.result = some err) ∧
      (∀ name, isActive m' name = false) ∧
      (∀ c ∈ calls, isActive m' c.name = false) ∧
      m'.Modules = m.Modules ∧ m'.configs = m.configs := by
  have hsome : ∀ name, (name, none) ∉ snapshotOrder (stopSnapshot m.Modules range []) := by
    intro name hmem
    have h := (mem_snapshotRange_iff m.Modules m.activeModules range _ hrange hsnap
      name none).1 hmem
    have hkey := hreg name h.1
    rw [← GoMap.get?_isSome_iff, ← h.2] at hkey
    exact absurd hkey (by simp)
  obtain ⟨calls, h1, h2, h3, h4, h5⟩ :=
    stopAll_calls beh m range snapshotOrder log hrange hsnap hsome
  refine ⟨calls, _, _, h1, h5, h4, ?_, ?_, ?_, ?_, rfl, rfl⟩
  · exact count_eq_of_nodup_iff _ h2 (fun k => isActive m k = true) h3
  · exact get?_errorsOf_nil calls h2
  · exact deactivatedBy_inactive calls m h3
  · exact fun c _ => deactivatedBy_inactive calls m h3 c.name

/-- Witness for C3: stopping the initialised example manager, whose only active
module is "printer". -/
theorem StopAllModules_stops_every_active_witness :
    GoMap.IsRange exampleInitialized.activeModules exampleInitialized.activeModules ∧
    GoMap.IsRange (stopSnapshot exampleInitialized.Modules exampleInitialized.activeModules [])
      (stopSnapshot exampleInitialized.Modules exampleInitialized.activeModules []) ∧
    ActiveRegistered exampleInitialized ∧
    ∃ (calls : List Call) (m' : Manager) (errors : GoMap GoError),
      StopAllModules exampleBehaviour exampleInitialized.activeModules (fun s => s)
        exampleInitialized [] = some (m', errors, [] ++ calls) ∧
      (∀ name, (calls.map Call.name).count name
        = if isActive exampleInitialized name = true then 1 else 0) ∧
      (∀ name, isActive m' name = false) :=
  have hrange : GoMap.IsRange exampleInitialized.activeModules
      exampleInitialized.activeModules := GoMap.isRange_self _ (by decide)
  have hsnap : GoMap.IsRange
      (stopSnapshot exampleInitialized.Modules exampleInitialized.activeModules [])
      (stopSnapshot exampleInitialized.Modules exampleInitialized.activeModules []) :=
    GoMap.isRange_self _ (by decide)
  have hreg : ActiveRegistered exampleInitialized := exampleInitialized_activeRegistered
  ⟨hrange, hsnap, hreg,
    (StopAllModules_stops_every_active exampleBehaviour exampleInitialized
      exampleInitialized.activeModules (fun s => s) [] hrange hsnap hreg).imp
      (fun _ h => h.imp (fun _ h => h.imp (fun _ h => ⟨h.1, h.2.2.2.1, h.2.2.2.2.2.1⟩)))⟩

/-- C4, counterexample: register "usb", let a first `InitializeAllModules` succeed
and a second one fail for it.  The state is reachable, the second call reports
the error of "usb" and leaves its flag set, and `StartAllModules` calls `Start`
on "usb": a module whose `Initialize` failed is started. -/
theorem StartAllModules_starts_after_failed_Initialize :
    Reachable exampleConfigs exampleSecondInitialize.1 ∧
    exampleFirstInitialize.2.1 = [] ∧
    isActive exampleFirstInitialize.1 "usb" = true ∧
    GoMap.get? exampleSecondInitialize.2.1 "usb" = some "device unavailable" ∧
    exampleSecondInitialize.2.2
      = [⟨Method.Initialize, "usb", ⟨1⟩, none⟩,
         ⟨Method.Initialize, "usb", ⟨1⟩, some "device unavailable"⟩] ∧
    isActive exampleSecondInitialize.1 "usb" = true ∧
    StartAllModules (fun _ _ _ _ => none) exampleSecondInitialize.1.activeModules
        exampleSecondInitialize.1 exampleSecondInitialize.2.2
      = some (exampleSecondInitialize.1, [],
          exampleSecondInitialize.2.2 ++ [⟨Method.Start, "usb", ⟨1⟩, none⟩]) := by
  refine ⟨?_, by decide, by decide, by decide, by decide, by decide, by decide⟩
  exact Reachable.initializeAll exampleFirstInitialize.1 exampleLaterCallsFail
    exampleFirstInitialize.1.Modules exampleFirstInitialize.2.2
    (Reachable.initializeAll exampleUsbManager exampleLaterCallsFail
      exampleUsbManager.Modules []
      (Reachable.register _ "usb" ⟨1⟩ Reachable.newManager)
      (GoMap.isRange_self _ (by decide)))
    (GoMap.isRange_self _ (by decide))

/-- C4, amended: in a state where every active name is registered and enabled,
`StartAllModules` returns with the manager state unchanged and calls `Start`
exactly once under each name whose `activeModules` flag is true and under no
other; the error map binds exactly the names whose `Start` failed, to that
error.  So no call is made for a disabled name, for a name whose flag was not
set and whose `Initialize` failed in the `InitializeAllModules` call that
produced the state, or for any name when the state is the one `StopAllModules`
returned; a name whose flag is set is started whatever its last `Initialize`
returned. -/
theorem StartAllModules_starts_only_active (beh : Behaviour) (m : Manager)
    (range : List (String × Bool)) (log : List Call)
    (hrange : GoMap.IsRange m.activeModules range)
    (hreg : ActiveRegistered m) (hen : ActiveEnabled m) :
    ∃ (calls : List Call) (errors : GoMap GoError),
      StartAllModules beh range m log = some (m, errors, log ++ calls) ∧
      Follows beh log calls ∧
      (∀ c ∈ calls, c.method = Method.Start ∧ GoMap.get? m.Modules c.name = some c.module) ∧
      (∀ name, (calls.map Call.name).count name = if isActive m name = true then 1 else 0) ∧
      (∀ name err, GoMap.get? errors name = some err ↔
        ∃ c ∈ calls, c.name = name ∧ c.result = some err) ∧
      (∀ name, configEnabled m.configs name = false → name ∉ calls.map Call.name) ∧
      (∀ (beh0 : Behaviour) (m0 : Manager) (range0 : List (String × Module))
          (log0 : List Call) (name : String),
        GoMap.IsRange m0.Modules range0 →
        m = (InitializeAllModules beh0 range0 m0 log0).1 →
        isActive m0 name = false →
        GoMap.get? (InitializeAllModules beh0 range0 m0 log0).2.1 name ≠ none →
        name ∉ calls.map Call.name) ∧
      (∀ (beh0 : Behaviour) (m0 : Manager) (range0 : List (String × Bool))
          (order0 : GoMap (Option Module) → List (String × Option Module))
          (log0 : List Call) (r : Manager × GoMap GoError × List Call),
        GoMap.IsRange m0.activeModules range0 →
        GoMap.IsRange (stopSnapshot m0.Modules range0 [])
          (order0 (stopSnapshot m0.Modules range0 [])) →
        StopAllModules beh0 range0 order0 m0 log0 = some r → m = r.1 → calls = []) := by
  obtain ⟨calls, h1, h2, h3, h4, h5⟩ := startAll_calls beh m range log hrange hreg
  refine ⟨calls, _, h1, h5, h4, ?_, ?_, ?_, ?_, ?_⟩
  · exact count_eq_of_nodup_iff _ h2 (fun k => isActive m k = true) h3
  · exact get?_errorsOf_nil calls h2
  · intro name hdis hmem
    have := hen name ((h3 name).1 hmem)
    rw [hdis] at this
    exact absurd this (by simp)
  · intro beh0 m0 range0 log0 name hrange0 hm hinactive hfail hmem
    have hact := (h3 name).1 hmem
    rw [hm] at hact
    rcases initializeAll_active beh0 m0 range0 log0 hrange0 name hact with h | h
    · rw [hinactive] at h
      exact absurd h (by simp)
    · exact hfail h.2.2
  · intro beh0 m0 range0 order0 log0 r hrange0 hsnap0 hrun hm
    have hinactive := (stopAll_some_inactive beh0 m0 range0 order0 log0 r hrange0 hsnap0
      hrun).2.2
    cases hcalls : calls with
    | nil => rfl
    | cons c rest =>
      have hact := (h3 c.name).1 (List.mem_map_of_mem _ (by rw [hcalls]; exact List.mem_cons_self _ _))
      rw [hm, hinactive c.name] at hact
      exact absurd hact (by simp)

/-- Witness for C4: starting the initialised example manager calls `Start` once,
under "printer". -/
theorem StartAllModules_starts_only_active_witness :
    GoMap.IsRange exampleInitialized.activeModules exampleInitialized.activeModules ∧
    ActiveRegistered exampleInitialized ∧ ActiveEnabled exampleInitialized ∧
    ∃ (calls : List Call) (errors : GoMap GoError),
      StartAllModules exampleBehaviour exampleInitialized.activeModules exampleInitialized []
        = some (exampleInitialized, errors, [] ++ calls) ∧
      (∀ name, (calls.map Call.name).count name
        = if isActive exampleInitialized name = true then 1 else 0) :=
  ⟨GoMap.isRange_self _ (by decide), exampleInitialized_activeRegistered,
    exampleInitialized_activeEnabled,
    (StartAllModules_starts_only_active exampleBehaviour exampleInitialized
      exampleInitialized.activeModules [] (GoMap.isRange_self _ (by decide))
      exampleInitialized_activeRegistered exampleInitialized_activeEnabled).imp
      (fun _ h => h.imp (fun _ h => ⟨h.1, h.2.2.2.1⟩))⟩

/-- C5: in every manager state reachable from `NewManager configs` by calls of
`RegisterModule`, `InitializeAllModules`, `StartAllModules` and
`StopAllModules`, every name whose `activeModules` flag is true is a key of
`Modules` and has a configuration entry with `Enabled = true`. -/
theorem reachable_active_registered_enabled (configs : Configs) (m : Manager)
    (hreach : Reachable configs m) (name : String) (hactive : isActive m name = true) :
    name ∈ GoMap.keys m.Modules ∧
    ∃ moduleConfig : Config,
      GoMap.get? configs.Modules name = some moduleConfig ∧ moduleConfig.Enabled = true := by
  have key : m.configs = configs ∧ ActiveRegistered m ∧ ActiveEnabled m := by
    clear hactive
    induction hreach with
    | newManager =>
      refine ⟨rfl, ?_, ?_⟩ <;> intro k hk <;> simp [isActive, NewManager, GoMap.get?] at hk
    | register m name module _ ih =>
      obtain ⟨hact, hcfg, hkeys⟩ := registerModule_state m name module
      refine ⟨hcfg.trans ih.1, ?_, ?_⟩
      · intro k hk
        simp only [isActive, hact] at hk
        exact hkeys k (ih.2.1 k hk)
      · intro k hk
        simp only [isActive, hact] at hk
        rw [hcfg]
        exact ih.2.2 k hk
    | initializeAll m beh range log _ hrange ih =>
      refine ⟨ih.1, ?_, ?_⟩
      · intro k hk
        rcases initializeAll_active beh m range log hrange k hk with h | h
        · exact ih.2.1 k h
        · exact h.1
      · intro k hk
        rcases initializeAll_active beh m range log hrange k hk with h | h
        · exact ih.2.2 k h
        · exact h.2.1
    | start m beh range log r _ _ hrun ih =>
      rw [startAll_some_state beh m range log r hrun]
      exact ih
    | stop m beh range order log r _ hrange hsnap hrun ih =>
      obtain ⟨_, hcfg, hinactive⟩ :=
        stopAll_some_inactive beh m range order log r hrange hsnap hrun
      refine ⟨hcfg.trans ih.1, ?_, ?_⟩ <;> intro k hk <;> rw [hinactive k] at hk <;>
        exact absurd hk (by simp)
  refine ⟨key.2.1 name hactive, ?_⟩
  have hen := key.2.2 name hactive
  rw [key.1] at hen
  unfold configEnabled at hen
  cases hget : GoMap.get? configs.Modules name with
  | none => simp [hget] at hen
  | some moduleConfig =>
    rw [hget] at hen
    exact ⟨moduleConfig, rfl, hen⟩

/-- Witness for C5: the initialised example manager is reachable and "printer" is
active in it. -/
theorem reachable_active_registered_enabled_witness :
    Reachable exampleConfigs exampleInitialized ∧
    isActive exampleInitialized "printer" = true ∧
    "printer" ∈ GoMap.keys exampleInitialized.Modules ∧
    ∃ moduleConfig : Config,
      GoMap.get? exampleConfigs.Modules "printer" = some moduleConfig ∧
        moduleConfig.Enabled = true :=
  have hreach : Reachable exampleConfigs exampleInitialized :=
    Reachable.initializeAll exampleManager exampleBehaviour exampleManager.Modules []
      (Reachable.register _ "bluetooth" ⟨3⟩
        (Reachable.register _ "printer" ⟨2⟩
          (Reachable.register _ "usb" ⟨1⟩ Reachable.newManager)))
      (GoMap.isRange_self _ (by decide))
  ⟨hreach, by decide,
    reachable_active_registered_enabled exampleConfigs exampleInitialized hreach "printer"
      (by decide)⟩

/-- C6: `N` sequential `Add` calls on a dispatcher made by `NewEventSender` all
return nil and leave a queue that is exactly the `N` added events in call
order, of length `N`; each single `Add` returns nil, appends its event at the
end of the queue and changes neither the earlier elements, `BatchSize` nor
`LastSendTime`. -/
theorem Add_appends_in_call_order (batchSize now : Int) (events : List Event)
    (s : EventSender) (event : Event) :
    (addAll (NewEventSender batchSize now) events).2 = List.replicate events.length none ∧
    (addAll (NewEventSender batchSize now) events).1.eventQueue = events ∧
    (addAll (NewEventSender batchSize now) events).1.eventQueue.length = events.length ∧
    (Add s event).2 = none ∧
    (Add s event).1.eventQueue = s.eventQueue ++ [event] ∧
    (Add s event).1.BatchSize = s.BatchSize ∧
    (Add s event).1.LastSendTime = s.LastSendTime := by
  rw [addAll_eq]
  simp [NewEventSender, Add]

/-- C7: `Flush` returns nil and leaves the queue empty; when the queue was
non-empty `LastSendTime` becomes the clock reading of the flush, which is not
earlier than the old value when the clock has not gone backwards; when the queue
was empty `Flush` changes no field and writes nothing to the sink.  `BatchSize`
is never changed. -/
theorem Flush_empties_queue (marshal : Event → Option String) (now : Int)
    (s : EventSender) (sink : List String) :
    (Flush marshal now s sink).2.1 = none ∧
    (Flush marshal now s sink).1.eventQueue = [] ∧
    (Flush marshal now s sink).1.BatchSize = s.BatchSize ∧
    (s.eventQueue ≠ [] → (Flush marshal now s sink).1.LastSendTime = now) ∧
    (s.eventQueue ≠ [] → s.LastSendTime ≤ now →
      s.LastSendTime ≤ (Flush marshal now s sink).1.LastSendTime) ∧
    (s.eventQueue = [] → Flush marshal now s sink = (s, none, sink)) := by
  unfold Flush
  by_cases h : s.eventQueue.length = 0
  · have hnil : s.eventQueue = [] := List.length_eq_zero.1 h
    simp [h, hnil]
  · have hne : s.eventQueue ≠ [] := fun e => h (by rw [e]; rfl)
    simp only [h, if_false, hne, false_implies, and_true, true_and]
    exact ⟨fun _ => trivial, fun _ hle => hle⟩

/-- Witness for C7: flushing the example dispatcher at reading 7, and flushing an
empty dispatcher. -/
theorem Flush_empties_queue_witness :
    exampleSender.eventQueue ≠ [] ∧ exampleSender.LastSendTime ≤ 7 ∧
    (Flush marshalEvent 7 exampleSender []).1.LastSendTime = 7 ∧
    exampleSender.LastSendTime ≤ (Flush marshalEvent 7 exampleSender []).1.LastSendTime ∧
    Flush marshalEvent 7 (NewEventSender 5 3) [] = (NewEventSender 5 3, none, []) :=
  ⟨by decide, by decide,
    (Flush_empties_queue marshalEvent 7 exampleSender []).2.2.2.1 (by decide),
    (Flush_empties_queue marshalEvent 7 exampleSender []).2.2.2.2.1 (by decide) (by decide),
    (Flush_empties_queue marshalEvent 7 (NewEventSender 5 3) []).2.2.2.2.2 rfl⟩

/-- C8: the code breaks the claim.  With a queued event whose data holds a channel,
which `encoding/json` cannot serialise, followed by a file event, `Flush`
empties the queue of two events, returns nil and writes a single line to the
sink: the first queued event is neither sent nor kept.  So it is false that the
lines written always cover the whole queue. -/
theorem Flush_skips_unserialisable_event :
    exampleSender.eventQueue = [exampleChannelEvent, exampleFileEvent] ∧
    (Flush marshalEvent 7 exampleSender []).1.eventQueue = [] ∧
    (Flush marshalEvent 7 exampleSender []).2.1 = none ∧
    (Flush marshalEvent 7 exampleSender []).2.2
      = [sendLine "\x7b\"id\": \"usb-1\", \"type\": \"file_create\"\x7d"] ∧
    ¬ ∀ (marshal : Event → Option String) (now : Int) (s : EventSender) (sink : List String),
        s.eventQueue ≠ [] →
        ∃ lines : List String,
          (Flush marshal now s sink).2.2 = sink ++ lines ∧
          lines.length = s.eventQueue.length := by
  refine ⟨rfl, by decide, by decide, by decide, ?_⟩
  intro h
  obtain ⟨lines, hlines, hlen⟩ := h marshalEvent 7 exampleSender [] (by decide)
  have hsink : (Flush marshalEvent 7 exampleSender []).2.2.length = 1 := by decide
  rw [hlines] at hsink
  simp only [List.nil_append] at hsink
  rw [hsink] at hlen
  exact absurd hlen (by decide)

/-- What `Flush` writes: it appends to the sink, in enqueue order, one line for each
queued event whose serialisation succeeds and nothing for an event whose
serialisation fails; when every queued event serialises, the lines written
correspond one to one, in enqueue order, to the whole queue. -/
theorem Flush_writes_serialisable_in_order (marshal : Event → Option String) (now : Int)
    (s : EventSender) (sink : List String) :
    (Flush marshal now s sink).2.2
      = sink ++ (s.eventQueue.filterMap marshal).map sendLine ∧
    ((∀ e ∈ s.eventQueue, marshal e ≠ none) →
      ∃ lines : List String,
        (Flush marshal now s sink).2.2 = sink ++ lines ∧
        List.Forall₂ (fun e line => ∃ text, marshal e = some text ∧ line = sendLine text)
          s.eventQueue lines) := by
  have hsink : (Flush marshal now s sink).2.2
      = sink ++ (s.eventQueue.filterMap marshal).map sendLine := by
    unfold Flush
    by_cases h : s.eventQueue.length = 0
    · have hnil : s.eventQueue = [] := List.length_eq_zero.1 h
      simp [h, hnil]
    · simp [h, flushLoop_eq]
  exact ⟨hsink, fun hall => ⟨_, hsink, forall₂_filterMap_of_all marshal s.eventQueue hall⟩⟩

/-- C9: `IsOverBatchSize` is true exactly when the queue length is at least
`BatchSize`, whatever `LastSendTime` is; with `BatchSize = 5` it is false with 4
queued events and true with 5. -/
theorem IsOverBatchSize_iff_length_ge (s : EventSender) :
    (IsOverBatchSize s = true ↔ (s.eventQueue.length : Int) ≥ s.BatchSize) ∧
    (∀ t : Int, IsOverBatchSize { s with LastSendTime := t } = IsOverBatchSize s) ∧
    (∀ (queue : List Event) (t : Int), queue.length = 4 →
      IsOverBatchSize ⟨5, queue, t⟩ = false) ∧
    (∀ (queue : List Event) (t : Int), queue.length = 5 →
      IsOverBatchSize ⟨5, queue, t⟩ = true) := by
  refine ⟨by simp [IsOverBatchSize], fun _ => rfl, ?_, ?_⟩
  · intro queue t h
    simp [IsOverBatchSize, h]
  · intro queue t h
    simp [IsOverBatchSize, h]

/-- Witness for C9: four and five copies of the example event against batch size 5. -/
theorem IsOverBatchSize_iff_length_ge_witness :
    (List.replicate 4 exampleFileEvent).length = 4 ∧
    IsOverBatchSize ⟨5, List.replicate 4 exampleFileEvent, 0⟩ = false ∧
    (List.replicate 5 exampleFileEvent).length = 5 ∧
    IsOverBatchSize ⟨5, List.replicate 5 exampleFileEvent, 0⟩ = true :=
  ⟨by decide,
    (IsOverBatchSize_iff_length_ge exampleSender).2.2.1 (List.replicate 4 exampleFileEvent) 0
      (by decide),
    by decide,
    (IsOverBatchSize_iff_length_ge exampleSender).2.2.2 (List.replicate 5 exampleFileEvent) 0
      (by decide)⟩

/-- C10: with the clock reading `now` as input, `IsOverTime` is true exactly when
the time elapsed since `LastSendTime` is strictly more than 5 seconds, whatever
the queue and `BatchSize` are: false 4.9 s and exactly 5 s after the last send,
true 5.1 s after it. -/
theorem IsOverTime_iff_elapsed_gt_five_seconds (s : EventSender) (now : Int) :
    (IsOverTime s now = true ↔ now - s.LastSendTime > 5 * Second) ∧
    (∀ (queue : List Event) (batchSize : Int),
      IsOverTime { s with eventQueue := queue, BatchSize := batchSize } now
        = IsOverTime s now) ∧
    IsOverTime s (s.LastSendTime + 4900000000) = false ∧
    IsOverTime s (s.LastSendTime + 5000000000) = false ∧
    IsOverTime s (s.LastSendTime + 5100000000) = true := by
  refine ⟨?_, fun _ _ => rfl, ?_, ?_, ?_⟩
  · simp only [IsOverTime, Since, Second, maxDuration, minDuration, decide_eq_true_eq]
    split_ifs <;> omega
  · simp only [IsOverTime, Since, Second, maxDuration, minDuration, decide_eq_false_iff_not]
    split_ifs <;> omega
  · simp only [IsOverTime, Since, Second, maxDuration, minDuration, decide_eq_false_iff_not]
    split_ifs <;> omega
  · simp only [IsOverTime, Since, Second, maxDuration, minDuration, decide_eq_true_eq]
    split_ifs <;> omega

/-! ## Lemmas and theorems on the removable-storage monitor -/

theorem and_two_pow_eq_iff (op i : Nat) : op &&& 2 ^ i = 2 ^ i ↔ op.testBit i = true := by
  constructor
  · intro h
    have h1 := congrArg (fun n => Nat.testBit n i) h
    simpa [Nat.testBit_and, Nat.testBit_two_pow_self] using h1
  · intro h
    apply Nat.eq_of_testBit_eq
    intro j
    rw [Nat.testBit_and, Nat.testBit_two_pow]
    by_cases hj : i = j
    · subst hj
      simp [h]
    · simp [hj]

theorem and_bit_eq_iff (op : Nat) :
    (op &&& fsnotify.Create = fsnotify.Create ↔ op.testBit 0 = true) ∧
    (op &&& fsnotify.Write = fsnotify.Write ↔ op.testBit 1 = true) ∧
    (op &&& fsnotify.Remove = fsnotify.Remove ↔ op.testBit 2 = true) ∧
    (op &&& fsnotify.Rename = fsnotify.Rename ↔ op.testBit 3 = true) ∧
    (op &&& fsnotify.Chmod = fsnotify.Chmod ↔ op.testBit 4 = true) :=
  ⟨and_two_pow_eq_iff op 0, and_two_pow_eq_iff op 1, and_two_pow_eq_iff op 2,
    and_two_pow_eq_iff op 3, and_two_pow_eq_iff op 4⟩

/-- C13: for every operation bitmask `getOperationName` returns the name of the
highest-priority bit that is set, in the order Create ("create"), Write
("write"), Remove ("delete"), Rename ("rename"), Chmod ("chmod"), and
"unknown" exactly when none of these five bits is set; a mask with Create and
Write gives "create", Rename alone gives "rename", and the masks 0 and 32, which
carry none of the five bits, give "unknown". -/
theorem getOperationName_priority (op : Nat) :
    (op.testBit 0 = true → usb.getOperationName op = "create") ∧
    (op.testBit 0 = false → op.testBit 1 = true → usb.getOperationName op = "write") ∧
    (op.testBit 0 = false → op.testBit 1 = false → op.testBit 2 = true →
      usb.getOperationName op = "delete") ∧
    (op.testBit 0 = false → op.testBit 1 = false → op.testBit 2 = false →
      op.testBit 3 = true → usb.getOperationName op = "rename") ∧
    (op.testBit 0 = false → op.testBit 1 = false → op.testBit 2 = false →
      op.testBit 3 = false → op.testBit 4 = true → usb.getOperationName op = "chmod") ∧
    (usb.getOperationName op = "unknown" ↔
      op.testBit 0 = false ∧ op.testBit 1 = false ∧ op.testBit 2 = false ∧
      op.testBit 3 = false ∧ op.testBit 4 = false) ∧
    usb.getOperationName op ∈ ["create", "write", "delete", "rename", "chmod", "unknown"] ∧
    usb.getOperationName (fsnotify.Create ||| fsnotify.Write) = "create" ∧
    usb.getOperationName fsnotify.Rename = "rename" ∧
    usb.getOperationName 0 = "unknown" ∧
    usb.getOperationName 32 = "unknown" := by
  obtain ⟨h0, h1, h2, h3, h4⟩ := and_bit_eq_iff op
  refine ⟨?_, ?_, ?_, ?_, ?_, ?_, ?_, by decide, by decide, by decide, by decide⟩
  · intro b0
    simp [usb.getOperationName, h0, b0]
  · intro b0 b1
    simp [usb.getOperationName, h0, h1, b0, b1]
  · intro b0 b1 b2
    simp [usb.getOperationName, h0, h1, h2, b0, b1, b2]
  · intro b0 b1 b2 b3
    simp [usb.getOperationName, h0, h1, h2, h3, b0, b1, b2, b3]
  · intro b0 b1 b2 b3 b4
    simp [usb.getOperationName, h0, h1, h2, h3, h4, b0, b1, b2, b3, b4]
  · simp only [usb.getOperationName, h0, h1, h2, h3, h4]
    cases op.testBit 0 <;> cases op.testBit 1 <;> cases op.testBit 2 <;>
      cases op.testBit 3 <;> cases op.testBit 4 <;> simp
  · simp only [usb.getOperationName, h0, h1, h2, h3, h4]
    cases op.testBit 0 <;> cases op.testBit 1 <;> cases op.testBit 2 <;>
      cases op.testBit 3 <;> cases op.testBit 4 <;> simp

/-- Witness for C13: the mask 6 carries Write and Remove but not Create. -/
theorem getOperationName_priority_witness :
    Nat.testBit 6 0 = false ∧ Nat.testBit 6 1 = true ∧ usb.getOperationName 6 = "write" :=
  ⟨by decide, by decide, (getOperationName_priority 6).2.1 (by decide) (by decide)⟩

/-- C14, counterexample: a notification that carries only the Remove bit, for a
path that is not a directory, makes `processFileEvents` emit no event and
leaves the run unchanged; so it is false that every notification on a
non-directory path yields exactly one event. -/
theorem processFileEvents_ignores_remove :
    usb.processFileEvents exampleClock (fun _ => "") (fun name => name) "E"
      [usb.Selected.notification (some exampleRemoveNotification) none none] exampleRun
      = exampleRun ∧
    (usb.processFileEvents exampleClock (fun _ => "") (fun name => name) "E"
      [usb.Selected.notification (some exampleRemoveNotification) none none]
      exampleRun).monitor.events = [] ∧
    ¬ ∀ (clock : Nat → Int) (formatTime : Int → String) (base : String → String)
        (driveLetter : String) (r : usb.Run) (event : fsnotify.Event)
        (firstStat secondStat : Option usb.FileInfo),
        (∀ fileInfo, firstStat = some fileInfo → fileInfo.IsDir = false) →
        ∃ e : Event,
          (usb.processFileEvents clock formatTime base driveLetter
            [usb.Selected.notification (some event) firstStat secondStat] r).monitor.events
            = r.monitor.events ++ [e] := by
  refine ⟨by decide, by decide, ?_⟩
  intro h
  obtain ⟨e, he⟩ := h exampleClock (fun _ => "") (fun name => name) "E" exampleRun
    exampleRemoveNotification none none (by simp)
  have hnil : (usb.processFileEvents exampleClock (fun _ => "") (fun name => name) "E"
      [usb.Selected.notification (some exampleRemoveNotification) none none]
      exampleRun).monitor.events = [] := by decide
  rw [hnil] at he
  simp at he

/-- C14, amended: for a notification whose operation carries the Create or the
Write bit and whose path is not a directory, `processFileEvents` appends exactly
one event to the log and hands it to the dispatcher: its type is "file_"
followed by `getOperationName` of the operation, which is "file_create" or
"file_write", its severity is 5, and its size field is the size reported by the
second `os.Stat` when that succeeds on a non-directory and 0 otherwise.  For a
notification that carries neither bit nothing is emitted. -/
theorem processFileEvents_emits_for_create_or_write (clock : Nat → Int)
    (formatTime : Int → String) (base : String → String) (driveLetter : String)
    (r : usb.Run) (event : fsnotify.Event) (firstStat secondStat : Option usb.FileInfo) :
    ((event.Op.testBit 0 = true ∨ event.Op.testBit 1 = true) →
      (∀ fileInfo, firstStat = some fileInfo → fileInfo.IsDir = false) →
      ∃ e : Event,
        (usb.processFileEvents clock formatTime base driveLetter
          [usb.Selected.notification (some event) firstStat secondStat] r).monitor.events
          = r.monitor.events ++ [e] ∧
        (usb.processFileEvents clock formatTime base driveLetter
          [usb.Selected.notification (some event) firstStat secondStat] r).effects
          = r.effects ++ [usb.Effect.dispatch e] ∧
        e.EventType = "file_" ++ usb.getOperationName event.Op ∧
        (e.EventType = "file_create" ∨ e.EventType = "file_write") ∧
        e.Severity = 5 ∧
        GoMap.get? e.Data "size" = some (DataValue.integer
          (match secondStat with
            | some fileInfo => if fileInfo.IsDir then 0 else fileInfo.Size
            | none => 0))) ∧
    (event.Op.testBit 0 = false → event.Op.testBit 1 = false →
      usb.processFileEvents clock formatTime base driveLetter
        [usb.Selected.notification (some event) firstStat secondStat] r = r) := by
  obtain ⟨h0, h1, -, -, -⟩ := and_bit_eq_iff event.Op
  constructor
  · intro hbits hfile
    have hguard : event.Op &&& fsnotify.Create = fsnotify.Create ∨
        event.Op &&& fsnotify.Write = fsnotify.Write := by
      rw [h0, h1]
      exact hbits
    have hnotDir : ∀ stat : Option usb.FileInfo,
        (∀ fileInfo, stat = some fileInfo → fileInfo.IsDir = false) →
        (match stat with
          | some fileInfo => fileInfo.IsDir
          | none => false) = false := by
      intro stat hstat
      cases stat with
      | none => rfl
      | some fileInfo => exact hstat fileInfo rfl
    have hdir := hnotDir firstStat hfile
    have hname : usb.getOperationName event.Op = "create" ∨
        usb.getOperationName event.Op = "write" := by
      by_cases hc : event.Op &&& fsnotify.Create = fsnotify.Create
      · left
        simp [usb.getOperationName, hc]
      · right
        have hw : event.Op &&& fsnotify.Write = fsnotify.Write := hguard.resolve_left hc
        simp [usb.getOperationName, hc, hw]
    have hrun : usb.processFileEvents clock formatTime base driveLetter
        [usb.Selected.notification (some event) firstStat secondStat] r
        = usb.logFileOperation clock formatTime { r with nowCalls := r.nowCalls + 1 }
            { Operation := usb.getOperationName event.Op
              FilePath := event.Name
              FileName := base event.Name
              DriveLetter := driveLetter
              UserInfo := r.monitor.userInfo
              Timestamp := clock r.nowCalls
              FileSize :=
                match secondStat with
                | some fileInfo => if fileInfo.IsDir then 0 else fileInfo.Size
                | none => 0 } := by
      simp only [usb.processFileEvents, usb.handleNotification, hguard, if_true, hdir]
      rfl
    rw [hrun]
    refine ⟨{ ID := "usb-" ++ toString (clock (r.nowCalls + 1))
              Timestamp := clock (r.nowCalls + 1 + 1)
              EventType := "file_" ++ usb.getOperationName event.Op
              Severity := usb.FILE_OPERATION_SEVERITY
              Data := _ }, rfl, rfl, rfl, ?_, rfl, ?_⟩
    · rcases hname with h | h
      · left
        show "file_" ++ usb.getOperationName event.Op = "file_create"
        rw [h]
        rfl
      · right
        show "file_" ++ usb.getOperationName event.Op = "file_write"
        rw [h]
        rfl
    · simp [GoMap.get?]
  · intro b0 b1
    have hguard : ¬ (event.Op &&& fsnotify.Create = fsnotify.Create ∨
        event.Op &&& fsnotify.Write = fsnotify.Write) := by
      rw [h0, h1, b0, b1]
      simp
    simp only [usb.processFileEvents, usb.handleNotification, hguard, if_false]

/-- Witness for C14, amended: a Create notification for a file of 1024 bytes. -/
theorem processFileEvents_emits_for_create_or_write_witness :
    (Nat.testBit exampleCreateNotification.Op 0 = true ∨
      Nat.testBit exampleCreateNotification.Op 1 = true) ∧
    (∀ fileInfo : usb.FileInfo,
      some (⟨false, 1024⟩ : usb.FileInfo) = some fileInfo → fileInfo.IsDir = false) ∧
    ∃ e : Event,
      (usb.processFileEvents exampleClock (fun _ => "") (fun name => name) "E"
        [usb.Selected.notification (some exampleCreateNotification) (some ⟨false, 1024⟩)
          (some ⟨false, 1024⟩)] exampleRun).monitor.events = exampleRun.monitor.events ++ [e] ∧
      (usb.processFileEvents exampleClock (fun _ => "") (fun name => name) "E"
        [usb.Selected.notification (some exampleCreateNotification) (some ⟨false, 1024⟩)
          (some ⟨false, 1024⟩)] exampleRun).effects
        = exampleRun.effects ++ [usb.Effect.dispatch e] ∧
      e.EventType = "file_" ++ usb.getOperationName exampleCreateNotification.Op ∧
      (e.EventType = "file_create" ∨ e.EventType = "file_write") ∧
      e.Severity = 5 ∧
      GoMap.get? e.Data "size" = some (DataValue.integer 1024) :=
  ⟨Or.inl (by decide), fun fileInfo h => by cases h; rfl,
    (processFileEvents_emits_for_create_or_write exampleClock (fun _ => "")
      (fun name => name) "E" exampleRun exampleCreateNotification (some ⟨false, 1024⟩)
      (some ⟨false, 1024⟩)).1 (Or.inl (by decide)) (fun fileInfo h => by cases h; rfl)⟩

theorem digitChar_injOn (a b : Nat) (ha : a < 10) (hb : b < 10)
    (h : Nat.digitChar a = Nat.digitChar b) : a = b := by
  interval_cases a <;> interval_cases b <;> first | rfl | (exact absurd h (by decide))

theorem digitChar_ne_minus (a : Nat) (ha : a < 10) : Nat.digitChar a ≠ '-' := by
  interval_cases a <;> decide

theorem toDigitsCore_eq_digits (fuel n : Nat) (acc : List Char) (hn : 0 < n) (hf : n < fuel) :
    Nat.toDigitsCore 10 fuel n acc = ((Nat.digits 10 n).reverse.map Nat.digitChar) ++ acc := by
  induction fuel generalizing n acc with
  | zero => omega
  | succ fuel ih =>
    rw [Nat.digits_def' (by decide) hn]
    simp only [Nat.toDigitsCore]
    by_cases h : n / 10 = 0
    · simp [h]
    · simp only [h, if_false]
      rw [ih (n / 10) _ (Nat.pos_of_ne_zero h) (by omega)]
      simp

theorem toDigits_pos (n : Nat) (hn : 0 < n) :
    Nat.toDigits 10 n = (Nat.digits 10 n).reverse.map Nat.digitChar := by
  rw [Nat.toDigits, toDigitsCore_eq_digits (n + 1) n [] hn (by omega)]
  simp

theorem map_digitChar_inj (l₁ l₂ : List Nat) (h₁ : ∀ d ∈ l₁, d < 10) (h₂ : ∀ d ∈ l₂, d < 10)
    (h : l₁.map Nat.digitChar = l₂.map Nat.digitChar) : l₁ = l₂ := by
  induction l₁ generalizing l₂ with
  | nil =>
    cases l₂ with
    | nil => rfl
    | cons b t => simp at h
  | cons a s ih =>
    cases l₂ with
    | nil => simp at h
    | cons b t =>
      simp only [List.map_cons, List.cons.injEq] at h
      rw [digitChar_injOn a b (h₁ a (List.mem_cons_self _ _)) (h₂ b (List.mem_cons_self _ _)) h.1,
        ih t (fun d hd => h₁ d (List.mem_cons_of_mem _ hd))
          (fun d hd => h₂ d (List.mem_cons_of_mem _ hd)) h.2]

theorem toDigits_eq_map (n : Nat) :
    ∃ l : List Nat, (∀ d ∈ l, d < 10) ∧ Nat.toDigits 10 n = l.map Nat.digitChar ∧
      (l = [0] ↔ n = 0) ∧ (0 < n → l = (Nat.digits 10 n).reverse) := by
  rcases Nat.eq_zero_or_pos n with rfl | hn
  · exact ⟨[0], by simp, by decide, by simp, by simp⟩
  · refine ⟨(Nat.digits 10 n).reverse, ?_, toDigits_pos n hn, ?_, fun _ => rfl⟩
    · intro d hd
      exact Nat.digits_lt_base (by decide) (List.mem_reverse.1 hd)
    · constructor
      · intro h
        have h' : Nat.digits 10 n = [0] := by
          have := congrArg List.reverse h
          simpa using this
        have hlast := Nat.getLast_digit_ne_zero 10 (Nat.pos_iff_ne_zero.1 hn)
        simp [h'] at hlast
      · intro h
        omega

theorem toDigits_injective (a b : Nat) (h : Nat.toDigits 10 a = Nat.toDigits 10 b) : a = b := by
  obtain ⟨la, hla, ha, ha0, hap⟩ := toDigits_eq_map a
  obtain ⟨lb, hlb, hb, hb0, hbp⟩ := toDigits_eq_map b
  rw [ha, hb] at h
  have hl := map_digitChar_inj la lb hla hlb h
  rcases Nat.eq_zero_or_pos a with ha' | ha'
  · have : lb = [0] := by rw [← hl]; exact ha0.2 ha'
    rw [ha', hb0.1 this]
  · rcases Nat.eq_zero_or_pos b with hb' | hb'
    · have : la = [0] := by rw [hl]; exact hb0.2 hb'
      rw [hb', ha0.1 this]
    · rw [hap ha', hbp hb'] at hl
      exact Nat.digits_inj_iff.1 (List.reverse_injective hl)

theorem natRepr_injective (a b : Nat) (h : Nat.repr a = Nat.repr b) : a = b := by
  apply toDigits_injective
  have hdata := congrArg String.data h
  simpa [Nat.repr, List.asString] using hdata

theorem natRepr_ne_minus (a b : Nat) : Nat.repr a ≠ "-" ++ Nat.repr b := by
  intro h
  obtain ⟨la, hla, ha, _, _⟩ := toDigits_eq_map a
  have hdata := congrArg String.data h
  simp only [Nat.repr, List.asString, String.data_append, ha] at hdata
  cases la with
  | nil => simp at hdata
  | cons d t =>
    simp only [List.map_cons] at hdata
    have hd : Nat.digitChar d = '-' := by
      have := congrArg List.head? hdata
      simpa using this
    exact digitChar_ne_minus d (hla d (List.mem_cons_self _ _)) hd

theorem intToString_injective (a b : Int) (h : toString a = toString b) : a = b := by
  cases a with
  | ofNat m =>
    cases b with
    | ofNat n =>
      have : m = n := natRepr_injective m n h
      rw [this]
    | negSucc n => exact absurd h (natRepr_ne_minus m (n + 1))
  | negSucc m =>
    cases b with
    | ofNat n => exact absurd h.symm (natRepr_ne_minus n (m + 1))
    | negSucc n =>
      have h' : "-" ++ Nat.repr (m + 1) = "-" ++ Nat.repr (n + 1) := h
      have hdata := congrArg String.data h'
      simp only [String.data_append, List.append_cancel_left_eq] at hdata
      have : Nat.repr (m + 1) = Nat.repr (n + 1) := String.ext hdata
      have hmn : m + 1 = n + 1 := natRepr_injective _ _ this
      have hmn' : m = n := by omega
      rw [hmn']

theorem prefixed_injective (pre a b : String) (h : pre ++ a = pre ++ b) : a = b := by
  have hdata := congrArg String.data h
  simp only [String.data_append, List.append_cancel_left_eq] at hdata
  exact String.ext hdata

theorem addEvents_ids (clock : Nat → Int) (r : usb.Run)
    (calls : List (String × Int × List (String × DataValue))) :
    ∃ new : List Event,
      (usb.addEvents clock r calls).monitor.events = r.monitor.events ++ new ∧
      new.length = calls.length ∧
      new.map Event.ID
        = (List.range calls.length).map
            fun k => "usb-" ++ toString (clock (r.nowCalls + 2 * k)) := by
  induction calls generalizing r with
  | nil => exact ⟨[], by simp [usb.addEvents]⟩
  | cons c rest ih =>
    obtain ⟨eventType, severity, data⟩ := c
    obtain ⟨new, h1, h2, h3⟩ := ih (usb.addEvent clock r eventType severity data)
    refine ⟨usb.newEvent clock r.nowCalls eventType severity data :: new, ?_, ?_, ?_⟩
    · rw [usb.addEvents, h1]
      simp only [usb.addEvent, List.append_assoc, List.singleton_append]
    · simp [h2]
    · rw [List.map_cons, h3, List.length_cons, List.range_succ_eq_map, List.map_cons,
        List.map_map]
      refine congrArg₂ List.cons (by simp [usb.newEvent]) ?_
      apply List.map_congr_left
      intro k _
      simp only [usb.addEvent, Function.comp]
      congr 3
      omega

/-- C16, counterexample: with a clock that stands still, which is non-decreasing,
two `addEvent` calls append two events with the same identifier. -/
theorem addEvent_ids_collide :
    Monotone (fun _ : Nat => (5 : Int)) ∧
    ((usb.addEvents (fun _ => 5) exampleRun
        [("connected_drive", 5, []), ("disconnected_drive", 5, [])]).monitor.events.map
      Event.ID) = ["usb-5", "usb-5"] ∧
    ¬ ((usb.addEvents (fun _ => 5) exampleRun
        [("connected_drive", 5, []), ("disconnected_drive", 5, [])]).monitor.events.map
      Event.ID).Nodup := by
  refine ⟨fun _ _ _ => le_refl _, by decide, by decide⟩

/-- C16, amended: for every sequence of `addEvent` calls and every strictly
increasing sequence of clock readings, the events appended to the log have
pairwise distinct identifiers; for any clock the identifier of the `k`-th
appended event is "usb-" followed by the decimal form of the reading its call
took first. -/
theorem addEvent_ids_distinct (clock : Nat → Int) (r : usb.Run)
    (calls : List (String × Int × List (String × DataValue))) :
    ∃ new : List Event,
      (usb.addEvents clock r calls).monitor.events = r.monitor.events ++ new ∧
      new.length = calls.length ∧
      new.map Event.ID
        = (List.range calls.length).map
            (fun k => "usb-" ++ toString (clock (r.nowCalls + 2 * k))) ∧
      (StrictMono clock → (new.map Event.ID).Nodup) := by
  obtain ⟨new, h1, h2, h3⟩ := addEvents_ids clock r calls
  refine ⟨new, h1, h2, h3, ?_⟩
  intro hclock
  rw [h3]
  refine (List.nodup_range calls.length).map ?_
  intro a b hab
  have hab' : "usb-" ++ toString (clock (r.nowCalls + 2 * a))
      = "usb-" ++ toString (clock (r.nowCalls + 2 * b)) := hab
  have hread := intToString_injective _ _ (prefixed_injective _ _ _ hab')
  have := hclock.injective hread
  omega

/-- Witness for C16, amended: two calls under the clock whose `n`-th reading is `n`. -/
theorem addEvent_ids_distinct_witness :
    StrictMono exampleClock ∧
    ∃ new : List Event,
      (usb.addEvents exampleClock exampleRun
        [("connected_drive", 5, []), ("disconnected_drive", 5, [])]).monitor.events
        = exampleRun.monitor.events ++ new ∧
      (new.map Event.ID).Nodup :=
  have hclock : StrictMono exampleClock := fun a b h => by
    simpa [exampleClock] using h
  ⟨hclock,
    (addEvent_ids_distinct exampleClock exampleRun
      [("connected_drive", 5, []), ("disconnected_drive", 5, [])]).imp
      (fun _ h => ⟨h.1, h.2.2.2 hclock⟩)⟩

theorem rel_append (root rel : FsPath) : filepath.Rel root (root ++ rel) = some rel := by
  induction root with
  | nil => rfl
  | cons b rest ih => simp [filepath.Rel, ih]

mutual
theorem walk_watch (root : FsPath) (maxDepth : Int) (hmax : 0 < maxDepth) :
    ∀ (t : FileTree) (rel : List String) (watched : List FsPath),
      (filepath.walk (usb.watchWalkFn root maxDepth) (root ++ rel) t watched).2
        = watched ++ (usb.dirsWithin maxDepth rel.length t).map (fun sub => root ++ rel ++ sub) ∧
      ((filepath.walk (usb.watchWalkFn root maxDepth) (root ++ rel) t watched).1 = none ∨
        ((filepath.walk (usb.watchWalkFn root maxDepth) (root ++ rel) t watched).1
          = some filepath.WalkError.SkipDir ∧ filepath.skippable t = true))
  | FileTree.file size, rel, watched => by
    simp [filepath.walk, usb.watchWalkFn, usb.dirsWithin]
  | FileTree.broken, rel, watched => by
    simp [filepath.walk, usb.watchWalkFn, usb.dirsWithin]
  | FileTree.dir readable children, rel, watched => by
    cases readable with
    | false => simp [filepath.walk, usb.watchWalkFn, usb.dirsWithin]
    | true =>
      by_cases hdepth : (rel.length : Int) ≤ maxDepth
      · have hfn : usb.watchWalkFn root maxDepth (root ++ rel) (some ⟨true, 0⟩) false watched
            = (none, watched ++ [root ++ rel]) := by
          have hnot : ¬ (rel.length : Int) > maxDepth := by omega
          simp only [usb.watchWalkFn, Bool.false_eq_true, if_false, if_true, hmax, rel_append,
            hnot]
          by_cases hrel : rel = [] <;> simp [hrel]
        have ih := walkNames_watch root maxDepth hmax children rel (watched ++ [root ++ rel])
        simp only [filepath.walk, if_true, hfn, usb.dirsWithin, hdepth, and_self, List.map_cons,
          List.append_nil]
        rw [ih.1]
        simp [ih.2]
      · have hgt : (rel.length : Int) > maxDepth := by omega
        have hrel : rel ≠ [] := by
          intro h
          rw [h] at hgt
          simp at hgt
          omega
        have hfn : usb.watchWalkFn root maxDepth (root ++ rel) (some ⟨true, 0⟩) false watched
            = (some filepath.WalkError.SkipDir, watched) := by
          simp [usb.watchWalkFn, hmax, rel_append, hgt, hrel]
        simp [filepath.walk, hfn, usb.dirsWithin, hdepth, filepath.skippable]
theorem walkNames_watch (root : FsPath) (maxDepth : Int) (hmax : 0 < maxDepth) :
    ∀ (children : List (String × FileTree)) (rel : List String) (watched : List FsPath),
      (filepath.walkNames (usb.watchWalkFn root maxDepth) (root ++ rel) children watched).2
        = watched ++ (usb.childDirsWithin maxDepth (rel.length + 1) children).map
            (fun sub => root ++ rel ++ sub) ∧
      (filepath.walkNames (usb.watchWalkFn root maxDepth) (root ++ rel) children watched).1
        = none
  | [], rel, watched => by simp [filepath.walkNames, usb.childDirsWithin]
  | (name, t) :: rest, rel, watched => by
    have ih := walk_watch root maxDepth hmax t (rel ++ [name]) watched
    have hpath : root ++ rel ++ [name] = root ++ (rel ++ [name]) := by simp
    simp only [filepath.walkNames, hpath]
    rcases hw : filepath.walk (usb.watchWalkFn root maxDepth) (root ++ (rel ++ [name])) t watched
      with ⟨e, w⟩
    rw [hw] at ih
    simp only at ih
    have ih2 := walkNames_watch root maxDepth hmax rest rel w
    have hfinal : (filepath.walkNames (usb.watchWalkFn root maxDepth) (root ++ rel) rest w).2
          = watched ++ (usb.childDirsWithin maxDepth (rel.length + 1) ((name, t) :: rest)).map
              (fun sub => root ++ rel ++ sub) ∧
        (filepath.walkNames (usb.watchWalkFn root maxDepth) (root ++ rel) rest w).1 = none := by
      rw [ih2.1, ih2.2, ih.1]
      simp [usb.childDirsWithin, List.length_append]
    rcases ih.2 with h | ⟨h, hs⟩
    · subst h
      exact hfinal
    · subst h
      simpa [hs] using hfinal
end

theorem mem_childDirsWithin (maxDepth : Int) (depth : Nat)
    (children : List (String × FileTree)) (sub : List String) :
    sub ∈ usb.childDirsWithin maxDepth depth children ↔
      ∃ name rest t, sub = name :: rest ∧ (name, t) ∈ children ∧
        rest ∈ usb.dirsWithin maxDepth depth t := by
  induction children with
  | nil => simp [usb.childDirsWithin]
  | cons p more ih =>
    obtain ⟨n, t'⟩ := p
    simp only [usb.childDirsWithin, List.mem_append, List.mem_map, ih, List.mem_cons,
      Prod.mk.injEq]
    constructor
    · rintro (⟨rest, hrest, rfl⟩ | ⟨name, rest, t, rfl, hmem, hrest⟩)
      · exact ⟨n, rest, t', rfl, Or.inl ⟨rfl, rfl⟩, hrest⟩
      · exact ⟨name, rest, t, rfl, Or.inr hmem, hrest⟩
    · rintro ⟨name, rest, t, rfl, (⟨rfl, rfl⟩ | hmem), hrest⟩
      · exact Or.inl ⟨rest, hrest, rfl⟩
      · exact Or.inr ⟨name, rest, t, rfl, hmem, hrest⟩

theorem mem_dirsWithin (maxDepth : Int) (sub : List String) :
    ∀ (depth : Nat) (t : FileTree),
      sub ∈ usb.dirsWithin maxDepth depth t ↔
        ((depth + sub.length : Nat) : Int) ≤ maxDepth ∧ usb.ReadableDir sub t := by
  induction sub with
  | nil =>
    intro depth t
    cases t with
    | file size => simp [usb.dirsWithin, usb.ReadableDir]
    | broken => simp [usb.dirsWithin, usb.ReadableDir]
    | dir readable children =>
      by_cases h : readable = true ∧ (depth : Int) ≤ maxDepth
      · simp [usb.dirsWithin, usb.ReadableDir, h]
      · simp only [usb.dirsWithin, h, if_false, List.not_mem_nil, usb.ReadableDir,
          List.length_nil, Nat.add_zero, false_iff]
        exact fun h' => h ⟨h'.2, h'.1⟩
  | cons name rest ih =>
    intro depth t
    cases t with
    | file size => simp [usb.dirsWithin, usb.ReadableDir]
    | broken => simp [usb.dirsWithin, usb.ReadableDir]
    | dir readable children =>
      by_cases h : readable = true ∧ (depth : Int) ≤ maxDepth
      · simp only [usb.dirsWithin, h, and_self, if_true, List.mem_cons, mem_childDirsWithin,
          List.cons.injEq, usb.ReadableDir, true_and, List.length_cons]
        constructor
        · rintro (habs | ⟨n, r, t, ⟨rfl, rfl⟩, hmem, hr⟩)
          · exact absurd habs (by simp)
          · have := (ih (depth + 1) t).1 hr
            refine ⟨?_, t, hmem, this.2⟩
            have h1 := this.1
            push_cast at h1 ⊢
            omega
        · rintro ⟨hlen, t, hmem, hr⟩
          refine Or.inr ⟨name, rest, t, ⟨rfl, rfl⟩, hmem, (ih (depth + 1) t).2 ⟨?_, hr⟩⟩
          push_cast at hlen ⊢
          omega
      · simp only [usb.dirsWithin, h, if_false, List.not_mem_nil, usb.ReadableDir,
          List.length_cons, false_iff]
        rintro ⟨hlen, hread, _⟩
        apply h
        refine ⟨hread, ?_⟩
        push_cast at hlen
        omega

/-- C15: for every directory tree and every `maxDepth > 0`, `addDirectoriesToWatch`
ends without error and passes to `watcher.Add` exactly the directories that lie
at most `maxDepth` components below the root and are not cut off by a directory
that cannot be listed: the root, when it can be listed, and no directory deeper
than `maxDepth`.  A directory that is too deep or cannot be listed is left out
with what lies below it, the walk goes on with its siblings.  On a chain of 12
nested directories with `maxDepth = 10` the root and the depths 1 to 10 are
registered, the depths 11 and 12 are not. -/
theorem addDirectoriesToWatch_depth_limited (rootPath : FsPath) (maxDepth : Int)
    (tree : FileTree) (watched : List FsPath) (hmax : 0 < maxDepth) :
    ∃ new : List FsPath,
      usb.addDirectoriesToWatch rootPath maxDepth tree watched = (none, watched ++ new) ∧
      (∀ p, p ∈ new ↔
        ∃ rel, p = rootPath ++ rel ∧ (rel.length : Int) ≤ maxDepth ∧ usb.ReadableDir rel tree) ∧
      (usb.ReadableDir [] tree → rootPath ∈ new) ∧
      (∀ rel, rootPath ++ rel ∈ new → (rel.length : Int) ≤ maxDepth) ∧
      usb.addDirectoriesToWatch ["E:\\"] 10 (usb.chain 12 0) []
        = (none, (List.range 11).map fun k =>
            "E:\\" :: (List.range k).map fun i => "d" ++ toString (i + 1)) := by
  have hwalk := walk_watch rootPath maxDepth hmax tree [] watched
  simp only [List.append_nil, List.length_nil] at hwalk
  have hmem : ∀ p, p ∈ (usb.dirsWithin maxDepth 0 tree).map (fun sub => rootPath ++ sub) ↔
      ∃ rel, p = rootPath ++ rel ∧ (rel.length : Int) ≤ maxDepth ∧ usb.ReadableDir rel tree := by
    intro p
    simp only [List.mem_map, mem_dirsWithin, Nat.zero_add]
    constructor
    · rintro ⟨rel, ⟨hlen, hread⟩, rfl⟩
      exact ⟨rel, rfl, hlen, hread⟩
    · rintro ⟨rel, rfl, hlen, hread⟩
      exact ⟨rel, ⟨hlen, hread⟩, rfl⟩
  refine ⟨(usb.dirsWithin maxDepth 0 tree).map (fun sub => rootPath ++ sub), ?_, hmem, ?_, ?_,
    by decide⟩
  · rcases hw : filepath.walk (usb.watchWalkFn rootPath maxDepth) rootPath tree watched
      with ⟨e, w⟩
    rw [hw] at hwalk
    simp only at hwalk
    rcases hwalk with ⟨hw2, h | ⟨h, _⟩⟩
    · subst h
      simp [usb.addDirectoriesToWatch, filepath.Walk, hw, hw2]
    · subst h
      simp [usb.addDirectoriesToWatch, filepath.Walk, hw, hw2]
  · intro hroot
    exact (hmem rootPath).2 ⟨[], by simp, by simpa using hmax.le, hroot⟩
  · intro rel hrel
    obtain ⟨rel', heq, hlen, _⟩ := (hmem _).1 hrel
    rw [List.append_cancel_left heq]
    exact hlen

/-- Witness for C15: the chain of 12 directories walked with the limit 10. -/
theorem addDirectoriesToWatch_depth_limited_witness :
    (0 : Int) < 10 ∧
    ∃ new : List FsPath,
      usb.addDirectoriesToWatch ["E:\\"] 10 (usb.chain 12 0) [] = (none, [] ++ new) ∧
      (∀ p, p ∈ new ↔
        ∃ rel, p = ["E:\\"] ++ rel ∧ (rel.length : Int) ≤ 10 ∧
          usb.ReadableDir rel (usb.chain 12 0)) :=
  ⟨by decide,
    (addDirectoriesToWatch_depth_limited ["E:\\"] 10 (usb.chain 12 0) [] (by decide)).imp
      (fun _ h => ⟨h.1, h.2.1⟩)⟩

/-! ## Lemmas on the detection loop -/

namespace GoMap

theorem mem_keys_set {V : Type} (m : GoMap V) (k : String) (v : V) (k' : String) :
    k' ∈ keys (set m k v) ↔ k' = k ∨ k' ∈ keys m := by
  rw [keys_set]
  by_cases h : k ∈ keys m
  · simp only [h, if_true]
    constructor
    · exact Or.inr
    · rintro (rfl | h')
      · exact h
      · exact h'
  · simp only [h, if_false, List.mem_append, List.mem_singleton]
    exact or_comm

theorem mem_keys_delete {V : Type} (m : GoMap V) (k : String) (k' : String) :
    k' ∈ keys (delete m k) ↔ k' ≠ k ∧ k' ∈ keys m := by
  simp only [keys, delete, List.mem_map, List.mem_filter, decide_eq_true_eq]
  constructor
  · rintro ⟨p, ⟨hp, hne⟩, rfl⟩
    exact ⟨hne, p, hp, rfl⟩
  · rintro ⟨hne, p, hp, rfl⟩
    exact ⟨p, ⟨hp, hne⟩, rfl⟩

theorem mem_keys_copyInto {V : Type} (es : List (String × V)) (copy : GoMap V) (k : String) :
    k ∈ keys (copyInto es copy) ↔ k ∈ es.map Prod.fst ∨ k ∈ keys copy := by
  induction es generalizing copy with
  | nil => simp [copyInto]
  | cons p rest ih =>
    obtain ⟨a, b⟩ := p
    rw [copyInto, ih, mem_keys_set]
    simp only [List.map_cons, List.mem_cons]
    tauto

end GoMap

theorem startedDrives_append (a b : List usb.Effect) :
    usb.startedDrives (a ++ b) = usb.startedDrives a ++ usb.startedDrives b := by
  induction a with
  | nil => rfl
  | cons e rest ih =>
    cases e <;> simp [usb.startedDrives, ih]

theorem connectLoop_spec (clock : Nat → Int) (isRemovableDrive : String → Bool)
    (connectedDrives : GoMap Bool) (drives : List String) :
    ∀ (currentDrives newConnectedDrives : GoMap Bool) (r : usb.Run),
    ∃ (evs : List Event) (fx : List usb.Effect),
      (usb.connectLoop clock isRemovableDrive connectedDrives drives currentDrives
        newConnectedDrives r).2.2.monitor.events = r.monitor.events ++ evs ∧
      evs.map usb.summary
        = (usb.freshDrives isRemovableDrive connectedDrives drives).map
            (fun d => ("connected_drive", (5 : Int), usb.driveData r.monitor.userInfo d)) ∧
      (usb.connectLoop clock isRemovableDrive connectedDrives drives currentDrives
        newConnectedDrives r).2.2.effects = r.effects ++ fx ∧
      usb.startedDrives fx = usb.freshDrives isRemovableDrive connectedDrives drives ∧
      (usb.connectLoop clock isRemovableDrive connectedDrives drives currentDrives
        newConnectedDrives r).2.2.monitor.watchContexts = r.monitor.watchContexts ∧
      (usb.connectLoop clock isRemovableDrive connectedDrives drives currentDrives
        newConnectedDrives r).2.2.monitor.connectedDrives = r.monitor.connectedDrives ∧
      (usb.connectLoop clock isRemovableDrive connectedDrives drives currentDrives
        newConnectedDrives r).2.2.monitor.userInfo = r.monitor.userInfo ∧
      (∀ k, k ∈ GoMap.keys (usb.connectLoop clock isRemovableDrive connectedDrives drives
          currentDrives newConnectedDrives r).1 ↔
        k ∈ GoMap.keys currentDrives ∨
          (k ∈ drives ∧ isRemovableDrive (usb.drivePath k) = true)) ∧
      (∀ k, k ∈ GoMap.keys (usb.connectLoop clock isRemovableDrive connectedDrives drives
          currentDrives newConnectedDrives r).2.1 ↔
        k ∈ GoMap.keys newConnectedDrives ∨
          k ∈ usb.freshDrives isRemovableDrive connectedDrives drives) := by
  induction drives with
  | nil =>
    intro cur new r
    exact ⟨[], [], by simp [usb.connectLoop, usb.freshDrives, usb.startedDrives]⟩
  | cons d rest ih =>
    intro cur new r
    by_cases hrem : isRemovableDrive (usb.drivePath d) = true
    · by_cases hconn : (GoMap.get? connectedDrives d).isSome = true
      · obtain ⟨evs, fx, h1, h2, h3, h4, h5, h6, h7, h8, h9⟩ :=
          ih (GoMap.set cur d true) new r
        have hfresh : usb.freshDrives isRemovableDrive connectedDrives (d :: rest)
            = usb.freshDrives isRemovableDrive connectedDrives rest := by
          have hne : ¬ GoMap.get? connectedDrives d = none := by
            intro h
            simp [h] at hconn
          simp [usb.freshDrives, List.filter_cons, hrem, hne]
        refine ⟨evs, fx, ?_, ?_, ?_, ?_, ?_, ?_, ?_, ?_, ?_⟩
        · simpa [usb.connectLoop, hrem, hconn] using h1
        · rw [hfresh]
          exact h2
        · simpa [usb.connectLoop, hrem, hconn] using h3
        · rw [hfresh]
          exact h4
        · simpa [usb.connectLoop, hrem, hconn] using h5
        · simpa [usb.connectLoop, hrem, hconn] using h6
        · simpa [usb.connectLoop, hrem, hconn] using h7
        · intro k
          simp only [usb.connectLoop, hrem, hconn, if_true, h8, GoMap.mem_keys_set,
            List.mem_cons]
          constructor
          · rintro ((rfl | h) | ⟨h, h'⟩)
            · exact Or.inr ⟨Or.inl rfl, hrem⟩
            · exact Or.inl h
            · exact Or.inr ⟨Or.inr h, h'⟩
          · rintro (h | ⟨rfl | h, h'⟩)
            · exact Or.inl (Or.inr h)
            · exact Or.inl (Or.inl rfl)
            · exact Or.inr ⟨h, h'⟩
        · intro k
          rw [hfresh]
          simpa [usb.connectLoop, hrem, hconn] using h9 k
      · obtain ⟨evs, fx, h1, h2, h3, h4, h5, h6, h7, h8, h9⟩ :=
          ih (GoMap.set cur d true) (GoMap.set new d true)
            { usb.addEvent clock r "connected_drive" usb.CONNECTED_DRIVE_SEVERITY
                (usb.driveData r.monitor.userInfo d) with
              effects := (usb.addEvent clock r "connected_drive" usb.CONNECTED_DRIVE_SEVERITY
                (usb.driveData r.monitor.userInfo d)).effects ++ [usb.Effect.startMonitor d] }
        have hfresh : usb.freshDrives isRemovableDrive connectedDrives (d :: rest)
            = d :: usb.freshDrives isRemovableDrive connectedDrives rest := by
          have hnone : GoMap.get? connectedDrives d = none := by
            cases h : GoMap.get? connectedDrives d with
            | none => rfl
            | some v => simp [h] at hconn
          simp [usb.freshDrives, List.filter_cons, hrem, hnone]
        have hloop : usb.connectLoop clock isRemovableDrive connectedDrives (d :: rest) cur new r
            = usb.connectLoop clock isRemovableDrive connectedDrives rest
                (GoMap.set cur d true) (GoMap.set new d true)
                { usb.addEvent clock r "connected_drive" usb.CONNECTED_DRIVE_SEVERITY
                    (usb.driveData r.monitor.userInfo d) with
                  effects := (usb.addEvent clock r "connected_drive"
                    usb.CONNECTED_DRIVE_SEVERITY
                    (usb.driveData r.monitor.userInfo d)).effects ++
                      [usb.Effect.startMonitor d] } := by
          simp [usb.connectLoop, hrem, hconn]
        rw [hloop, hfresh]
        refine ⟨usb.newEvent clock r.nowCalls "connected_drive" usb.CONNECTED_DRIVE_SEVERITY
            (usb.driveData r.monitor.userInfo d) :: evs,
          usb.Effect.dispatch (usb.newEvent clock r.nowCalls "connected_drive"
            usb.CONNECTED_DRIVE_SEVERITY (usb.driveData r.monitor.userInfo d)) ::
            usb.Effect.startMonitor d :: fx, ?_, ?_, ?_, ?_, ?_, ?_, ?_, ?_, ?_⟩
        · rw [h1]
          simp [usb.addEvent]
        · rw [List.map_cons, h2]
          simp [usb.summary, usb.newEvent, usb.addEvent, usb.CONNECTED_DRIVE_SEVERITY]
        · rw [h3]
          simp [usb.addEvent]
        · simp [usb.startedDrives, h4]
        · rw [h5]
          rfl
        · rw [h6]
          rfl
        · rw [h7]
          rfl
        · intro k
          simp only [h8, GoMap.mem_keys_set, List.mem_cons]
          constructor
          · rintro ((rfl | h) | ⟨h, h'⟩)
            · exact Or.inr ⟨Or.inl rfl, hrem⟩
            · exact Or.inl h
            · exact Or.inr ⟨Or.inr h, h'⟩
          · rintro (h | ⟨rfl | h, h'⟩)
            · exact Or.inl (Or.inr h)
            · exact Or.inl (Or.inl rfl)
            · exact Or.inr ⟨h, h'⟩
        · intro k
          simp only [h9, GoMap.mem_keys_set, List.mem_cons]
          tauto
    · obtain ⟨evs, fx, h1, h2, h3, h4, h5, h6, h7, h8, h9⟩ := ih cur new r
      have hfresh : usb.freshDrives isRemovableDrive connectedDrives (d :: rest)
          = usb.freshDrives isRemovableDrive connectedDrives rest := by
        simp [usb.freshDrives, List.filter_cons, hrem]
      have hloop : usb.connectLoop clock isRemovableDrive connectedDrives (d :: rest) cur new r
          = usb.connectLoop clock isRemovableDrive connectedDrives rest cur new r := by
        simp [usb.connectLoop, hrem]
      rw [hloop, hfresh]
      refine ⟨evs, fx, h1, h2, h3, h4, h5, h6, h7, ?_, h9⟩
      intro k
      rw [h8]
      simp only [List.mem_cons]
      constructor
      · rintro (h | ⟨h, h'⟩)
        · exact Or.inl h
        · exact Or.inr ⟨Or.inr h, h'⟩
      · rintro (h | ⟨rfl | h, h'⟩)
        · exact Or.inl h
        · exact absurd h' hrem
        · exact Or.inr ⟨h, h'⟩

theorem disconnectDrive_spec (clock : Nat → Int) (r : usb.Run) (d : String) :
    ∃ fx : List usb.Effect,
      (usb.disconnectDrive clock r d).monitor.events
        = r.monitor.events ++ [usb.newEvent clock r.nowCalls "disconnected_drive"
            usb.DISCONNECTED_DRIVE_SEVERITY (usb.driveData r.monitor.userInfo d)] ∧
      (usb.disconnectDrive clock r d).effects = r.effects ++ fx ∧
      usb.startedDrives fx = [] ∧
      (usb.disconnectDrive clock r d).monitor.connectedDrives = r.monitor.connectedDrives ∧
      (usb.disconnectDrive clock r d).monitor.userInfo = r.monitor.userInfo ∧
      (∀ k, k ∈ GoMap.keys (usb.disconnectDrive clock r d).monitor.watchContexts ↔
        k ≠ d ∧ k ∈ GoMap.keys r.monitor.watchContexts) := by
  cases h : GoMap.get? r.monitor.watchContexts d with
  | none =>
    refine ⟨[usb.Effect.dispatch (usb.newEvent clock r.nowCalls "disconnected_drive"
      usb.DISCONNECTED_DRIVE_SEVERITY (usb.driveData r.monitor.userInfo d))], ?_, ?_, ?_, ?_,
      ?_, ?_⟩
    · simp [usb.disconnectDrive, h, usb.addEvent]
    · simp [usb.disconnectDrive, h, usb.addEvent]
    · simp [usb.startedDrives]
    · simp [usb.disconnectDrive, h, usb.addEvent]
    · simp [usb.disconnectDrive, h, usb.addEvent]
    · intro k
      have hd : d ∉ GoMap.keys r.monitor.watchContexts :=
        (GoMap.get?_eq_none_iff _ d).1 h
      simp only [usb.disconnectDrive, h, usb.addEvent]
      constructor
      · intro hk
        exact ⟨fun e => hd (e ▸ hk), hk⟩
      · exact fun hk => hk.2
  | some cancel =>
    refine ⟨[usb.Effect.dispatch (usb.newEvent clock r.nowCalls "disconnected_drive"
      usb.DISCONNECTED_DRIVE_SEVERITY (usb.driveData r.monitor.userInfo d)),
      usb.Effect.cancel cancel], ?_, ?_, ?_, ?_, ?_, ?_⟩
    · simp [usb.disconnectDrive, h, usb.addEvent]
    · simp [usb.disconnectDrive, h, usb.addEvent]
    · simp [usb.startedDrives]
    · simp [usb.disconnectDrive, h, usb.addEvent]
    · simp [usb.disconnectDrive, h, usb.addEvent]
    · intro k
      simp only [usb.disconnectDrive, h, usb.addEvent, GoMap.mem_keys_delete]

theorem disconnectLoop_spec (clock : Nat → Int) (currentDrives : GoMap Bool)
    (visited : List (String × Bool)) :
    ∀ (updatedDrives : GoMap Bool) (r : usb.Run),
    ∃ (evs : List Event) (fx : List usb.Effect),
      (usb.disconnectLoop clock currentDrives visited updatedDrives r).2.monitor.events
        = r.monitor.events ++ evs ∧
      evs.map usb.summary
        = (usb.goneDrives currentDrives visited).map
            (fun d => ("disconnected_drive", (5 : Int), usb.driveData r.monitor.userInfo d)) ∧
      (usb.disconnectLoop clock currentDrives visited updatedDrives r).2.effects
        = r.effects ++ fx ∧
      usb.startedDrives fx = [] ∧
      (usb.disconnectLoop clock currentDrives visited updatedDrives r).2.monitor.connectedDrives
        = r.monitor.connectedDrives ∧
      (usb.disconnectLoop clock currentDrives visited updatedDrives r).2.monitor.userInfo
        = r.monitor.userInfo ∧
      (∀ k, k ∈ GoMap.keys
          (usb.disconnectLoop clock currentDrives visited updatedDrives r).2.monitor.watchContexts ↔
        k ∈ GoMap.keys r.monitor.watchContexts ∧ k ∉ usb.goneDrives currentDrives visited) ∧
      (∀ k, k ∈ GoMap.keys (usb.disconnectLoop clock currentDrives visited updatedDrives r).1 ↔
        k ∈ GoMap.keys updatedDrives ∧ k ∉ usb.goneDrives currentDrives visited) := by
  induction visited with
  | nil =>
    intro upd r
    exact ⟨[], [], by simp [usb.disconnectLoop, usb.goneDrives, usb.startedDrives]⟩
  | cons p rest ih =>
    obtain ⟨d, v⟩ := p
    intro upd r
    cases hcur : GoMap.get? currentDrives d with
    | some b =>
      obtain ⟨evs, fx, h1, h2, h3, h4, h5, h6, h7, h8⟩ := ih upd r
      have hgone : usb.goneDrives currentDrives ((d, v) :: rest)
          = usb.goneDrives currentDrives rest := by
        simp [usb.goneDrives, List.filter_cons, hcur]
      have hloop : usb.disconnectLoop clock currentDrives ((d, v) :: rest) upd r
          = usb.disconnectLoop clock currentDrives rest upd r := by
        simp [usb.disconnectLoop, hcur]
      rw [hloop, hgone]
      exact ⟨evs, fx, h1, h2, h3, h4, h5, h6, h7, h8⟩
    | none =>
      obtain ⟨fx1, g1, g2, g3, g4, g5, g6⟩ := disconnectDrive_spec clock r d
      obtain ⟨evs, fx, h1, h2, h3, h4, h5, h6, h7, h8⟩ :=
        ih (GoMap.delete upd d) (usb.disconnectDrive clock r d)
      have hgone : usb.goneDrives currentDrives ((d, v) :: rest)
          = d :: usb.goneDrives currentDrives rest := by
        simp [usb.goneDrives, List.filter_cons, hcur]
      have hloop : usb.disconnectLoop clock currentDrives ((d, v) :: rest) upd r
          = usb.disconnectLoop clock currentDrives rest (GoMap.delete upd d)
              (usb.disconnectDrive clock r d) := by
        simp [usb.disconnectLoop, hcur]
      rw [hloop, hgone]
      refine ⟨usb.newEvent clock r.nowCalls "disconnected_drive"
          usb.DISCONNECTED_DRIVE_SEVERITY (usb.driveData r.monitor.userInfo d) :: evs,
        fx1 ++ fx, ?_, ?_, ?_, ?_, ?_, ?_, ?_, ?_⟩
      · rw [h1, g1]
        simp
      · rw [List.map_cons, h2, g5]
        simp [usb.summary, usb.newEvent, usb.DISCONNECTED_DRIVE_SEVERITY]
      · rw [h3, g2]
        simp
      · rw [startedDrives_append, g3, h4]
        rfl
      · rw [h5, g4]
      · rw [h6, g5]
      · intro k
        rw [h7, g6]
        simp only [List.mem_cons, not_or]
        tauto
      · intro k
        rw [h8, GoMap.mem_keys_delete]
        simp only [List.mem_cons, not_or]
        tauto

theorem runMonitors_spec (p : usb.Poll) (started : List String) :
    ∀ r : usb.Run,
      (usb.runMonitors p started r).monitor.events = r.monitor.events ∧
      (usb.runMonitors p started r).monitor.connectedDrives = r.monitor.connectedDrives ∧
      (usb.runMonitors p started r).monitor.userInfo = r.monitor.userInfo ∧
      (∃ fx, (usb.runMonitors p started r).effects = r.effects ++ fx ∧
        usb.startedDrives fx = []) ∧
      (∀ k, k ∈ GoMap.keys (usb.runMonitors p started r).monitor.watchContexts ↔
        (k ∈ started ∧ p.newWatcherFails k = false) ∨
        (k ∉ started ∧ k ∈ GoMap.keys r.monitor.watchContexts)) := by
  induction started with
  | nil =>
    intro r
    exact ⟨rfl, rfl, rfl, ⟨[], by simp [usb.runMonitors, usb.startedDrives]⟩,
      by simp [usb.runMonitors]⟩
  | cons d rest ih =>
    intro r
    obtain ⟨h1, h2, h3, ⟨fx, h4, h5⟩, h6⟩ :=
      ih (usb.monitorDriveFiles (p.newWatcherFails d) (p.volumes d) r d)
    have hkeys : ∀ k, k ∈ GoMap.keys
        (usb.monitorDriveFiles (p.newWatcherFails d) (p.volumes d) r d).monitor.watchContexts ↔
        (k = d ∧ p.newWatcherFails d = false) ∨
        (k ≠ d ∧ k ∈ GoMap.keys r.monitor.watchContexts) := by
      intro k
      cases hf : p.newWatcherFails d with
      | true =>
        simp only [usb.monitorDriveFiles, if_true, GoMap.mem_keys_delete, GoMap.mem_keys_set]
        constructor
        · rintro ⟨hne, h | h⟩
          · exact absurd h hne
          · exact Or.inr ⟨hne, h⟩
        · rintro (⟨_, h⟩ | ⟨hne, h⟩)
          · exact absurd h (by simp)
          · exact ⟨hne, Or.inr h⟩
      | false =>
        simp only [usb.monitorDriveFiles, Bool.false_eq_true, if_false, GoMap.mem_keys_set]
        by_cases hk : k = d
        · simp [hk]
        · simp [hk]
    have hfx : ∃ fx1, (usb.monitorDriveFiles (p.newWatcherFails d) (p.volumes d) r d).effects
        = r.effects ++ fx1 ∧ usb.startedDrives fx1 = [] := by
      cases hf : p.newWatcherFails d with
      | true => exact ⟨[], by simp [usb.monitorDriveFiles, usb.startedDrives]⟩
      | false =>
        refine ⟨(usb.addDirectoriesToWatch [usb.drivePath d] usb.MAX_WATCH_DEPTH (p.volumes d)
          []).2.map (usb.Effect.watchDir d) ++ [usb.Effect.startEvents d r.contexts], ?_, ?_⟩
        · simp [usb.monitorDriveFiles]
        · rw [startedDrives_append]
          have hmap : ∀ l : List FsPath,
              usb.startedDrives (l.map (usb.Effect.watchDir d)) = [] := by
            intro l
            induction l with
            | nil => rfl
            | cons a t iht => simpa [usb.startedDrives] using iht
          simp [hmap, usb.startedDrives]
    obtain ⟨fx1, hfx1, hfx2⟩ := hfx
    have hfields : (usb.monitorDriveFiles (p.newWatcherFails d) (p.volumes d) r d).monitor.events
          = r.monitor.events ∧
        (usb.monitorDriveFiles (p.newWatcherFails d) (p.volumes d) r d).monitor.connectedDrives
          = r.monitor.connectedDrives ∧
        (usb.monitorDriveFiles (p.newWatcherFails d) (p.volumes d) r d).monitor.userInfo
          = r.monitor.userInfo := by
      cases hf : p.newWatcherFails d <;> simp [usb.monitorDriveFiles]
    refine ⟨?_, ?_, ?_, ⟨fx1 ++ fx, ?_, ?_⟩, ?_⟩
    · rw [usb.runMonitors, h1, hfields.1]
    · rw [usb.runMonitors, h2, hfields.2.1]
    · rw [usb.runMonitors, h3, hfields.2.2]
    · rw [usb.runMonitors, h4, hfx1]
      simp
    · rw [startedDrives_append, hfx2, h5]
      rfl
    · intro k
      rw [usb.runMonitors, h6, hkeys]
      simp only [List.mem_cons, not_or]
      by_cases hk : k = d
      · subst hk
        by_cases hrest : k ∈ rest
        · simp [hrest]
        · simp [hrest]
      · simp [hk]

theorem mem_freshDrives (isRemovableDrive : String → Bool) (connectedDrives : GoMap Bool)
    (drives : List String) (k : String) :
    k ∈ usb.freshDrives isRemovableDrive connectedDrives drives ↔
      (k ∈ drives ∧ isRemovableDrive (usb.drivePath k) = true) ∧
        k ∉ GoMap.keys connectedDrives := by
  rw [← GoMap.get?_isSome_iff]
  simp only [usb.freshDrives, List.mem_filter, Bool.and_eq_true, Bool.not_eq_true',
    Bool.not_eq_true]
  tauto

theorem mem_goneDrives (currentDrives : GoMap Bool) (visited : List (String × Bool))
    (k : String) :
    k ∈ usb.goneDrives currentDrives visited ↔
      k ∈ visited.map Prod.fst ∧ k ∉ GoMap.keys currentDrives := by
  rw [← GoMap.get?_isSome_iff]
  simp only [usb.goneDrives, List.mem_filter, Bool.not_eq_true', Bool.not_eq_true]

theorem pollStep_spec (clock : Nat → Int) (p : usb.Poll) (r : usb.Run)
    (hvalid : usb.PollValid clock p r) :
    ∃ (gone : List String) (evs : List Event) (fx : List usb.Effect),
      gone.Nodup ∧
      (∀ k, k ∈ gone ↔ k ∈ GoMap.keys r.monitor.connectedDrives ∧
        ¬ (k ∈ p.drives ∧ p.isRemovableDrive (usb.drivePath k) = true)) ∧
      (usb.pollStep clock p r).monitor.events = r.monitor.events ++ evs ∧
      evs.map usb.summary
        = (usb.freshDrives p.isRemovableDrive r.monitor.connectedDrives p.drives).map
            (fun d => ("connected_drive", (5 : Int), usb.driveData r.monitor.userInfo d)) ++
          gone.map
            (fun d => ("disconnected_drive", (5 : Int), usb.driveData r.monitor.userInfo d)) ∧
      (usb.pollStep clock p r).effects = r.effects ++ fx ∧
      usb.startedDrives fx
        = usb.freshDrives p.isRemovableDrive r.monitor.connectedDrives p.drives ∧
      (usb.pollStep clock p r).monitor.userInfo = r.monitor.userInfo ∧
      (∀ k, k ∈ GoMap.keys (usb.pollStep clock p r).monitor.connectedDrives ↔
        k ∈ p.drives ∧ p.isRemovableDrive (usb.drivePath k) = true) ∧
      (∀ k, k ∈ GoMap.keys (usb.pollStep clock p r).monitor.watchContexts ↔
        (k ∈ usb.freshDrives p.isRemovableDrive r.monitor.connectedDrives p.drives ∧
          p.newWatcherFails k = false) ∨
        (k ∉ usb.freshDrives p.isRemovableDrive r.monitor.connectedDrives p.drives ∧
          k ∈ GoMap.keys r.monitor.watchContexts ∧ k ∉ gone)) := by
  obtain ⟨hrange, hcopy, hloop⟩ := hvalid
  obtain ⟨evs1, fx1, c1, c2, c3, c4, c5, c6, c7, c8, c9⟩ :=
    connectLoop_spec clock p.isRemovableDrive r.monitor.connectedDrives p.drives []
      (GoMap.copyInto (p.rangeOrder r.monitor.connectedDrives) []) r
  have hdc : usb.detectConnectedDrives clock p.isRemovableDrive
      (p.rangeOrder r.monitor.connectedDrives) p.drives r
      = usb.connectLoop clock p.isRemovableDrive r.monitor.connectedDrives p.drives []
          (GoMap.copyInto (p.rangeOrder r.monitor.connectedDrives) []) r := rfl
  rw [hdc] at hcopy hloop
  generalize hres : usb.connectLoop clock p.isRemovableDrive r.monitor.connectedDrives p.drives
      [] (GoMap.copyInto (p.rangeOrder r.monitor.connectedDrives) []) r = res
    at c1 c3 c5 c6 c7 c8 c9 hcopy hloop
  obtain ⟨evs2, fx2, d1, d2, d3, d4, d5, d6, d7, d8⟩ :=
    disconnectLoop_spec clock res.1 (p.loopOrder res.2.1)
      (GoMap.copyInto (p.copyOrder res.2.1) []) res.2.2
  have hdetect : usb.detectStep clock p r
      = { (usb.disconnectLoop clock res.1 (p.loopOrder res.2.1)
            (GoMap.copyInto (p.copyOrder res.2.1) []) res.2.2).2 with
          monitor :=
            { (usb.disconnectLoop clock res.1 (p.loopOrder res.2.1)
                (GoMap.copyInto (p.copyOrder res.2.1) []) res.2.2).2.monitor with
              connectedDrives :=
                (usb.disconnectLoop clock res.1 (p.loopOrder res.2.1)
                  (GoMap.copyInto (p.copyOrder res.2.1) []) res.2.2).1 } } := by
    simp only [usb.detectStep, usb.detectDisconnectedDrives, hdc, hres]
  generalize hres2 : usb.disconnectLoop clock res.1 (p.loopOrder res.2.1)
      (GoMap.copyInto (p.copyOrder res.2.1) []) res.2.2 = res2
    at d1 d3 d5 d6 d7 d8 hdetect
  have hnew : ∀ k, k ∈ GoMap.keys res.2.1 ↔
      k ∈ GoMap.keys r.monitor.connectedDrives ∨
        k ∈ usb.freshDrives p.isRemovableDrive r.monitor.connectedDrives p.drives := by
    intro k
    rw [c9, GoMap.mem_keys_copyInto, hrange.mem_keys_iff]
    simp [GoMap.keys]
  have hcur : ∀ k, k ∈ GoMap.keys res.1 ↔
      k ∈ p.drives ∧ p.isRemovableDrive (usb.drivePath k) = true := by
    intro k
    rw [c8]
    simp [GoMap.keys]
  have hgone : ∀ k, k ∈ usb.goneDrives res.1 (p.loopOrder res.2.1) ↔
      k ∈ GoMap.keys r.monitor.connectedDrives ∧
        ¬ (k ∈ p.drives ∧ p.isRemovableDrive (usb.drivePath k) = true) := by
    intro k
    rw [mem_goneDrives, hloop.mem_keys_iff, hnew, hcur, mem_freshDrives]
    tauto
  have hstarted : usb.startedDrives ((usb.detectStep clock p r).effects.drop r.effects.length)
      = usb.freshDrives p.isRemovableDrive r.monitor.connectedDrives p.drives := by
    rw [hdetect]
    simp only [d3, c3, List.append_assoc, List.drop_left, startedDrives_append, c4, d4,
      List.append_nil]
  obtain ⟨m1, m2, m3, ⟨fx3, m4, m5⟩, m6⟩ :=
    runMonitors_spec p
      (usb.freshDrives p.isRemovableDrive r.monitor.connectedDrives p.drives)
      (usb.detectStep clock p r)
  have hpoll : usb.pollStep clock p r
      = usb.runMonitors p
          (usb.freshDrives p.isRemovableDrive r.monitor.connectedDrives p.drives)
          (usb.detectStep clock p r) := by
    rw [usb.pollStep, hstarted]
  rw [hpoll]
  refine ⟨usb.goneDrives res.1 (p.loopOrder res.2.1), evs1 ++ evs2, fx1 ++ fx2 ++ fx3,
    ?_, hgone, ?_, ?_, ?_, ?_, ?_, ?_, ?_⟩
  · exact List.Nodup.filter _ hloop.1
  · rw [m1, hdetect]
    simp only [d1, c1, List.append_assoc]
  · rw [List.map_append, c2, d2, c7]
  · rw [m4, hdetect]
    simp only [d3, c3, List.append_assoc]
  · rw [startedDrives_append, startedDrives_append, c4, d4, m5]
    simp
  · rw [m3, hdetect]
    simp only [d6, c7]
  · intro k
    rw [m2, hdetect]
    simp only [d8, GoMap.mem_keys_copyInto, hcopy.mem_keys_iff, hgone, hnew, hcur,
      mem_freshDrives]
    simp only [GoMap.keys, List.map_nil, List.not_mem_nil, or_false]
    tauto
  · intro k
    rw [m6, hdetect]
    simp only [d7, c5]

theorem freshDrives_eq_filter (isRemovableDrive : String → Bool)
    (connectedDrives : GoMap Bool) (drives : List String) :
    usb.freshDrives isRemovableDrive connectedDrives drives
      = (drives.filter fun d => isRemovableDrive (usb.drivePath d)).filter
          fun d => decide (d ∉ GoMap.keys connectedDrives) := by
  rw [List.filter_filter, usb.freshDrives]
  apply List.filter_congr
  intro d _
  have h := GoMap.get?_isSome_iff connectedDrives d
  by_cases hd : d ∈ GoMap.keys connectedDrives
  · simp [hd, h.2 hd]
  · have hnot : (GoMap.get? connectedDrives d).isSome = false := by
      cases hs : (GoMap.get? connectedDrives d).isSome with
      | false => rfl
      | true => exact absurd (h.1 hs) hd
    simp [hd, hnot]

/-- C11: one poll step with distinct enumerated drives, tracked set `P` (the keys
of `connectedDrives`) and removable set `C` appends to the log exactly one
`connected_drive` event of severity 5 for each drive in `C` but not `P`, in
enumeration order, then one `disconnected_drive` event of severity 5 for each
drive in `P` but not `C`, and no other event; it launches `monitorDriveFiles`
once for each drive in `C` but not `P` and leaves a tracked set whose keys are
exactly `C`.  From a new monitor the polls {A}, {A,B}, {B}, {} give
connect(A), connect(B), disconnect(A), disconnect(B) in that order, two
launches and an empty tracked set. -/
theorem pollStep_connects_and_disconnects (clock : Nat → Int) (p : usb.Poll) (r : usb.Run)
    (hvalid : usb.PollValid clock p r) (hdistinct : p.drives.Nodup) :
    ∃ (gone : List String) (new : List Event) (fx : List usb.Effect),
      ((p.drives.filter fun d => p.isRemovableDrive (usb.drivePath d)).filter
        fun d => decide (d ∉ GoMap.keys r.monitor.connectedDrives)).Nodup ∧
      gone.Nodup ∧
      (∀ d, d ∈ gone ↔ d ∈ GoMap.keys r.monitor.connectedDrives ∧
        d ∉ p.drives.filter fun d => p.isRemovableDrive (usb.drivePath d)) ∧
      (usb.pollStep clock p r).monitor.events = r.monitor.events ++ new ∧
      new.map usb.summary
        = ((p.drives.filter fun d => p.isRemovableDrive (usb.drivePath d)).filter
            fun d => decide (d ∉ GoMap.keys r.monitor.connectedDrives)).map
            (fun d => ("connected_drive", (5 : Int), usb.driveData r.monitor.userInfo d)) ++
          gone.map
            (fun d => ("disconnected_drive", (5 : Int), usb.driveData r.monitor.userInfo d)) ∧
      (usb.pollStep clock p r).effects = r.effects ++ fx ∧
      usb.startedDrives fx
        = (p.drives.filter fun d => p.isRemovableDrive (usb.drivePath d)).filter
            (fun d => decide (d ∉ GoMap.keys r.monitor.connectedDrives)) ∧
      (∀ d, d ∈ GoMap.keys (usb.pollStep clock p r).monitor.connectedDrives ↔
        d ∈ p.drives.filter fun d => p.isRemovableDrive (usb.drivePath d)) ∧
      (usb.pollAll exampleClock
        [usb.simplePoll ["A"], usb.simplePoll ["A", "B"], usb.simplePoll ["B"],
          usb.simplePoll []] exampleRun).monitor.events.map usb.summary
        = [("connected_drive", 5, usb.driveData ⟨"alice", "pc"⟩ "A"),
           ("connected_drive", 5, usb.driveData ⟨"alice", "pc"⟩ "B"),
           ("disconnected_drive", 5, usb.driveData ⟨"alice", "pc"⟩ "A"),
           ("disconnected_drive", 5, usb.driveData ⟨"alice", "pc"⟩ "B")] ∧
      usb.startedDrives (usb.pollAll exampleClock
        [usb.simplePoll ["A"], usb.simplePoll ["A", "B"], usb.simplePoll ["B"],
          usb.simplePoll []] exampleRun).effects = ["A", "B"] ∧
      (usb.pollAll exampleClock
        [usb.simplePoll ["A"], usb.simplePoll ["A", "B"], usb.simplePoll ["B"],
          usb.simplePoll []] exampleRun).monitor.connectedDrives = [] := by
  obtain ⟨gone, evs, fx, h1, h2, h3, h4, h5, h6, _, h8, _⟩ := pollStep_spec clock p r hvalid
  rw [freshDrives_eq_filter] at h4 h6
  refine ⟨gone, evs, fx, ?_, h1, ?_, h3, h4, h5, h6, ?_, by decide, by decide, by decide⟩
  · exact (hdistinct.filter _).filter _
  · intro d
    rw [h2]
    simp only [List.mem_filter]
  · intro d
    rw [h8]
    simp only [List.mem_filter]

/-- Witness for C11: the first poll of a new monitor finds the removable drives "A"
and "B". -/
theorem pollStep_connects_and_disconnects_witness :
    usb.PollValid exampleClock (usb.simplePoll ["A", "B"]) exampleRun ∧
    (usb.simplePoll ["A", "B"]).drives.Nodup ∧
    ∃ (gone : List String) (new : List Event) (fx : List usb.Effect),
      (usb.pollStep exampleClock (usb.simplePoll ["A", "B"]) exampleRun).monitor.events
        = exampleRun.monitor.events ++ new ∧
      (usb.pollStep exampleClock (usb.simplePoll ["A", "B"]) exampleRun).effects
        = exampleRun.effects ++ fx ∧
      (∀ d, d ∈ GoMap.keys
          (usb.pollStep exampleClock (usb.simplePoll ["A", "B"]) exampleRun).monitor.connectedDrives ↔
        d ∈ (usb.simplePoll ["A", "B"]).drives.filter
          fun d => (usb.simplePoll ["A", "B"]).isRemovableDrive (usb.drivePath d)) ∧
      gone.Nodup :=
  have hvalid : usb.PollValid exampleClock (usb.simplePoll ["A", "B"]) exampleRun :=
    ⟨GoMap.isRange_self _ (by decide), GoMap.isRange_self _ (by decide),
      GoMap.isRange_self _ (by decide)⟩
  ⟨hvalid, by decide,
    (pollStep_connects_and_disconnects exampleClock (usb.simplePoll ["A", "B"]) exampleRun
      hvalid (by decide)).imp
      (fun _ h => h.imp (fun _ h => h.imp
        (fun _ h => ⟨h.2.2.2.1, h.2.2.2.2.2.1, h.2.2.2.2.2.2.2.1, h.2.1⟩)))⟩

/-- C12, counterexample: after one completed poll step in which drive "E" is
attached and `fsnotify.NewWatcher` fails, "E" is in `connectedDrives` and has no
entry in `watchContexts`. -/
theorem watchContexts_missing_after_failed_watcher :
    usb.PollReachable exampleClock ⟨"alice", "pc"⟩ false
      (usb.pollStep exampleClock exampleFailingPoll exampleRun) ∧
    "E" ∈ GoMap.keys (usb.pollStep exampleClock exampleFailingPoll exampleRun).monitor.connectedDrives ∧
    "E" ∉ GoMap.keys (usb.pollStep exampleClock exampleFailingPoll exampleRun).monitor.watchContexts ∧
    ¬ ∀ d, d ∈ GoMap.keys
          (usb.pollStep exampleClock exampleFailingPoll exampleRun).monitor.watchContexts ↔
        d ∈ GoMap.keys
          (usb.pollStep exampleClock exampleFailingPoll exampleRun).monitor.connectedDrives := by
  refine ⟨?_, by decide, by decide, ?_⟩
  · exact usb.PollReachable.step exampleRun exampleFailingPoll usb.PollReachable.new
      ⟨GoMap.isRange_self _ (by decide), GoMap.isRange_self _ (by decide),
        GoMap.isRange_self _ (by decide)⟩ (fun h => absurd h (by decide))
  · intro h
    exact absurd ((h "E").2 (by decide)) (by decide)

/-- C12, amended: in every state reached after completed poll steps, a drive id
that has an entry in `watchContexts` is present in `connectedDrives`; when every
`fsnotify.NewWatcher` call of every step succeeded, a drive id has an entry in
`watchContexts` if and only if it is present in `connectedDrives`. -/
theorem watchContexts_subset_connectedDrives (clock : Nat → Int) (userInfo : usb.UserInfo)
    (watchersOk : Bool) (r : usb.Run)
    (hreach : usb.PollReachable clock userInfo watchersOk r) :
    (∀ d, d ∈ GoMap.keys r.monitor.watchContexts → d ∈ GoMap.keys r.monitor.connectedDrives) ∧
    (watchersOk = true →
      ∀ d, d ∈ GoMap.keys r.monitor.watchContexts ↔ d ∈ GoMap.keys r.monitor.connectedDrives) := by
  induction hreach with
  | new => simp [usb.newRun, usb.NewMonitor, GoMap.keys]
  | step r p _ hvalid hok ih =>
    obtain ⟨gone, evs, fx, _, h2, _, _, _, _, _, h8, h9⟩ := pollStep_spec clock p r hvalid
    have hsub : ∀ d, d ∈ GoMap.keys (usb.pollStep clock p r).monitor.watchContexts →
        d ∈ GoMap.keys (usb.pollStep clock p r).monitor.connectedDrives := by
      intro d hd
      rw [h8]
      rcases (h9 d).1 hd with ⟨hfresh, _⟩ | ⟨_, hwc, hgone⟩
      · exact ((mem_freshDrives _ _ _ d).1 hfresh).1
      · by_contra hnot
        exact hgone ((h2 d).2 ⟨ih.1 d hwc, hnot⟩)
    refine ⟨hsub, fun hb d => ⟨hsub d, ?_⟩⟩
    intro hd
    rw [h8] at hd
    rw [h9]
    by_cases hfresh : d ∈ usb.freshDrives p.isRemovableDrive r.monitor.connectedDrives p.drives
    · exact Or.inl ⟨hfresh, hok hb d⟩
    · have hconn : d ∈ GoMap.keys r.monitor.connectedDrives := by
        by_contra hnot
        exact hfresh ((mem_freshDrives _ _ _ d).2 ⟨hd, hnot⟩)
      refine Or.inr ⟨hfresh, ((ih.2 hb) d).2 hconn, ?_⟩
      intro hgone
      exact ((h2 d).1 hgone).2 hd

/-- Witness for C12, amended: after one completed poll step that attaches "E" with
its watcher created, "E" has a handle and is attached. -/
theorem watchContexts_subset_connectedDrives_witness :
    usb.PollReachable exampleClock ⟨"alice", "pc"⟩ true
      (usb.pollStep exampleClock (usb.simplePoll ["E"]) exampleRun) ∧
    (∀ d, d ∈ GoMap.keys
        (usb.pollStep exampleClock (usb.simplePoll ["E"]) exampleRun).monitor.watchContexts ↔
      d ∈ GoMap.keys
        (usb.pollStep exampleClock (usb.simplePoll ["E"]) exampleRun).monitor.connectedDrives) ∧
    "E" ∈ GoMap.keys
      (usb.pollStep exampleClock (usb.simplePoll ["E"]) exampleRun).monitor.watchContexts :=
  have hreach : usb.PollReachable exampleClock ⟨"alice", "pc"⟩ true
      (usb.pollStep exampleClock (usb.simplePoll ["E"]) exampleRun) :=
    usb.PollReachable.step exampleRun (usb.simplePoll ["E"]) usb.PollReachable.new
      ⟨GoMap.isRange_self _ (by decide), GoMap.isRange_self _ (by decide),
        GoMap.isRange_self _ (by decide)⟩ (fun _ _ => rfl)
  ⟨hreach,
    (watchContexts_subset_connectedDrives exampleClock ⟨"alice", "pc"⟩ true _ hreach).2 rfl,
    by decide⟩

/-- C17: `EventSender` has no lock, so two goroutines running `Add` can both read
the empty queue before either stores its appended slice; under that schedule
both calls return and the queue holds one event, the other is lost.  Under the
schedule that runs the calls one after the other both events are queued. -/
theorem unsynchronised_Add_loses_event :
    runAddCalls [0, 1, 0, 1] (NewEventSender 5 0)
        [AddCall.pending exampleFileEvent, AddCall.pending exampleChannelEvent]
      = ({ BatchSize := 5, eventQueue := [exampleChannelEvent], LastSendTime := 0 },
          [AddCall.returned, AddCall.returned]) ∧
    exampleFileEvent ∉
      (runAddCalls [0, 1, 0, 1] (NewEventSender 5 0)
        [AddCall.pending exampleFileEvent, AddCall.pending exampleChannelEvent]).1.eventQueue ∧
    (runAddCalls [0, 0, 1, 1] (NewEventSender 5 0)
        [AddCall.pending exampleFileEvent, AddCall.pending exampleChannelEvent]).1.eventQueue
      = [exampleFileEvent, exampleChannelEvent] := by
  refine ⟨by decide, by decide, by decide⟩

end EndpointMonitor
